import Mathlib

/- Formal model of the edstem-download conversion pipeline.
   The Python sources are embedded shallowly: Python strings are Lean `String`
   (manipulated as `List Char`), byte payloads are `List Nat`, and the external
   collaborators (the `requests` image fetch and the pandoc conversion boundary)
   are function parameters.  Regular-expression substitutions from the source are
   translated into explicit left-to-right scanners with the same leftmost,
   non-overlapping match semantics. -/

namespace EdSpec

/-- The apostrophe character (U+0027). -/
def apos : Char := Char.ofNat 39

/-- Python `str.isspace` test (the ASCII members of CPython's whitespace set;
the regex class `\s` uses the same characters). -/
def pyIsSpace (c : Char) : Bool :=
  c == ' ' || c == '\t' || c == '\n' || c == '\r' || c == '\x0b' || c == '\x0c'

/-- Python `str.strip()` on char lists. -/
def stripList (cs : List Char) : List Char :=
  ((cs.dropWhile pyIsSpace).reverse.dropWhile pyIsSpace).reverse

/-- Python `str.strip()`. -/
def pyStrip (s : String) : String := String.mk (stripList s.data)

/-- Python `str.rstrip()` on char lists. -/
def rstripList (cs : List Char) : List Char :=
  (cs.reverse.dropWhile pyIsSpace).reverse

/-- Python `str.rstrip()`. -/
def pyRStrip (s : String) : String := String.mk (rstripList s.data)

/-- Python `str.strip(c)` for a single strip character (used as `.strip("\n")`). -/
def stripCharList (t : Char) (cs : List Char) : List Char :=
  ((cs.dropWhile (· == t)).reverse.dropWhile (· == t)).reverse

/-- Python `str.splitlines()` on char lists: split at `\r\n`, `\r` or `\n`,
with no trailing empty line. -/
def splitLinesAux : Nat → List Char → List Char → List (List Char)
  | 0, cs, acc => [(acc.reverse ++ cs)]
  | _fuel + 1, [], acc => [acc.reverse]
  | fuel + 1, c :: rest, acc =>
    if c = '\r' then
      match rest with
      | '\n' :: rest2 =>
        if rest2.isEmpty then [acc.reverse]
        else acc.reverse :: splitLinesAux fuel rest2 []
      | _ =>
        if rest.isEmpty then [acc.reverse]
        else acc.reverse :: splitLinesAux fuel rest []
    else if c = '\n' then
      if rest.isEmpty then [acc.reverse]
      else acc.reverse :: splitLinesAux fuel rest []
    else splitLinesAux fuel rest (c :: acc)

/-- Python `str.splitlines()` (restricted to the `\n`, `\r`, `\r\n` separators). -/
def pySplitLines (s : String) : List String :=
  if s.data.isEmpty then []
  else (splitLinesAux s.data.length s.data []).map String.mk

/-- Substring containment on char lists (Python's `in` for strings). -/
def subSearch (pat : List Char) : List Char → Bool
  | [] => pat.isEmpty
  | c :: rest => pat.isPrefixOf (c :: rest) || subSearch pat rest

/-- Python `pat in s` substring test. -/
def containsSub (s pat : String) : Bool := subSearch pat.data s.data

/-- Python `str.replace(pat, repl)` on char lists: leftmost, non-overlapping,
replace all (the sources never call it with an empty pattern). -/
def replaceAllAux (pat repl : List Char) : Nat → List Char → List Char
  | 0, cs => cs
  | _fuel + 1, [] => []
  | fuel + 1, c :: rest =>
    if pat ≠ [] ∧ pat.isPrefixOf (c :: rest) then
      repl ++ replaceAllAux pat repl fuel (rest.drop (pat.length - 1))
    else
      c :: replaceAllAux pat repl fuel rest

/-- Python `str.replace`. -/
def pyReplace (s pat repl : String) : String :=
  String.mk (replaceAllAux pat.data repl.data s.data.length s.data)

/-- Python `str.lower()` (ASCII). -/
def pyLower (s : String) : String := String.mk (s.data.map Char.toLower)

/-- Python `str.upper()` (ASCII); used to instantiate the conversion boundary. -/
def pyUpper (s : String) : String := String.mk (s.data.map Char.toUpper)

/-- Python `html.escape(s, quote=True)` (the default used throughout the source):
`&` `<` `>` `"` `'` become entities. -/
def htmlEscapeChar (c : Char) : List Char :=
  if c == '&' then "&amp;".data
  else if c == '<' then "&lt;".data
  else if c == '>' then "&gt;".data
  else if c == '"' then "&quot;".data
  else if c == apos then "&#x27;".data
  else [c]

/-- Python `html.escape` with the default `quote=True`. -/
def htmlEscape (s : String) : String := String.mk (s.data.flatMap htmlEscapeChar)

/-- Python `html.unescape`, restricted to the standard named entities (with and
without the trailing semicolon, as HTML5 allows) and `&#39;`/`&#x27;`; other
ampersands are kept literally, as `html.unescape` keeps unknown entities. -/
def pyUnescapeAux : Nat → List Char → List Char
  | 0, cs => cs
  | _fuel + 1, [] => []
  | fuel + 1, c :: rest =>
    if c = '&' then
      if "lt;".data.isPrefixOf rest then '<' :: pyUnescapeAux fuel (rest.drop 3)
      else if "gt;".data.isPrefixOf rest then '>' :: pyUnescapeAux fuel (rest.drop 3)
      else if "amp;".data.isPrefixOf rest then '&' :: pyUnescapeAux fuel (rest.drop 4)
      else if "quot;".data.isPrefixOf rest then '"' :: pyUnescapeAux fuel (rest.drop 5)
      else if "#39;".data.isPrefixOf rest then apos :: pyUnescapeAux fuel (rest.drop 4)
      else if "#x27;".data.isPrefixOf rest then apos :: pyUnescapeAux fuel (rest.drop 5)
      else if "lt".data.isPrefixOf rest then '<' :: pyUnescapeAux fuel (rest.drop 2)
      else if "gt".data.isPrefixOf rest then '>' :: pyUnescapeAux fuel (rest.drop 2)
      else if "amp".data.isPrefixOf rest then '&' :: pyUnescapeAux fuel (rest.drop 3)
      else if "quot".data.isPrefixOf rest then '"' :: pyUnescapeAux fuel (rest.drop 4)
      else '&' :: pyUnescapeAux fuel rest
    else c :: pyUnescapeAux fuel rest

/-- Python `html.unescape` (entity subset). -/
def pyUnescape (s : String) : String := String.mk (pyUnescapeAux s.data.length s.data)

/-- Digit-string validity for Python `int`: `digit (('_')? digit)*`. -/
def pyIntDigitsOk : List Char → Bool
  | [] => false
  | [c] => c.isDigit
  | c :: '_' :: d :: rest => c.isDigit && pyIntDigitsOk (d :: rest)
  | c :: d :: rest => c.isDigit && pyIntDigitsOk (d :: rest)

/-- Numeric value of a valid Python integer digit string. -/
def pyIntDigitsVal (cs : List Char) : Nat :=
  (cs.filter Char.isDigit).foldl (fun a c => a * 10 + (c.toNat - '0'.toNat)) 0

/-- Python `int(s)`: optional surrounding whitespace, optional sign, decimal
digits with single underscores allowed between digits; `none` models
`ValueError`. -/
def pyInt (s : String) : Option Int :=
  let cs := stripList s.data
  match cs with
  | '+' :: rest => if pyIntDigitsOk rest then some (Int.ofNat (pyIntDigitsVal rest)) else none
  | '-' :: rest => if pyIntDigitsOk rest then some (-(Int.ofNat (pyIntDigitsVal rest))) else none
  | rest => if pyIntDigitsOk rest then some (Int.ofNat (pyIntDigitsVal rest)) else none

/-- Standard base64 alphabet. -/
def b64Alphabet : List Char :=
  "ABCDEFGHIJKLMNOPQRSTUVWXYZabcdefghijklmnopqrstuvwxyz0123456789+/".data

/-- One base64 output character. -/
def b64Char (n : Nat) : Char := b64Alphabet.getD n 'A'

/-- `base64.b64encode` over a byte list (values taken mod 256 implicitly by use). -/
def b64Encode : List Nat → List Char
  | [] => []
  | [a] => [b64Char (a / 4), b64Char (a % 4 * 16), '=', '=']
  | [a, b] => [b64Char (a / 4), b64Char (a % 4 * 16 + b / 16), b64Char (b % 16 * 4), '=']
  | a :: b :: c :: rest =>
    b64Char (a / 4) :: b64Char (a % 4 * 16 + b / 16) ::
      b64Char (b % 16 * 4 + c / 64) :: b64Char (c % 64) :: b64Encode rest

/-- The extension (after the final dot) of a URL path, query/fragment removed;
helper for the `mimetypes.guess_type` model. -/
def urlExtension (s : String) : String :=
  let path := s.data.takeWhile (fun c => c ≠ '?' && c ≠ '#')
  let revPath := path.reverse
  let revExt := revPath.takeWhile (fun c => c ≠ '.' && c ≠ '/')
  match revPath.drop revExt.length with
  | '.' :: _ => String.mk revExt.reverse
  | _ => ""

/-- `mimetypes.guess_type(url)[0]` restricted to common image extensions
(the only extensions relevant to this pipeline); other extensions map to
`none` like unknown types do in Python. -/
def mimetypesGuess (url : String) : Option String :=
  let ext := pyLower (urlExtension url)
  if ext = "png" then some "image/png"
  else if ext = "jpg" then some "image/jpeg"
  else if ext = "jpeg" then some "image/jpeg"
  else if ext = "gif" then some "image/gif"
  else if ext = "svg" then some "image/svg+xml"
  else if ext = "webp" then some "image/webp"
  else none

/- ===== XML model (xml.etree.ElementTree, restricted to the features the
   EdXML dialect uses: elements, attributes, text, tails; no comments,
   processing instructions or CDATA, which the parser rejects like ET rejects
   other malformed input). ===== -/

/-- An ElementTree element: tag, attributes, leading text, children, tail text. -/
inductive XElem where
  | mk (tag : String) (attrs : List (String × String)) (text : String)
       (children : List XElem) (tail : String)

/-- The tail text of an element. -/
def xmlTail : XElem → String
  | .mk _ _ _ _ t => t

/-- Replace the tail of an element (ET assigns `tail` after constructing the child). -/
def xmlSetTail : XElem → String → XElem
  | .mk tg a x c _, t => .mk tg a x c t

/-- XML name start character (restricted to ASCII). -/
def xmlNameStart (c : Char) : Bool := c.isAlpha || c == '_'

/-- XML name character (restricted to ASCII). -/
def xmlNameChar (c : Char) : Bool :=
  c.isAlpha || c.isDigit || c == '-' || c == '_' || c == '.' || c == ':'

/-- XML whitespace. -/
def xmlIsSpace (c : Char) : Bool := c == ' ' || c == '\t' || c == '\r' || c == '\n'

/-- Decode the five standard XML entities in text/attribute runs (ET decodes
these during parsing; inputs in this repository use no other entities). -/
def xmlDecode (cs : List Char) : String := String.mk (pyUnescapeAux cs.length cs)

/-- Parse an attribute list; returns attributes and remaining input.
Fails (`none`) on malformed attribute syntax. -/
def parseXmlAttrs : Nat → List Char → Option (List (String × String) × List Char)
  | 0, _ => none
  | fuel + 1, cs =>
    let cs0 := cs.dropWhile xmlIsSpace
    match cs0 with
    | c :: _ =>
      if xmlNameStart c then
        let nm := cs0.takeWhile xmlNameChar
        let cs1 := (cs0.dropWhile xmlNameChar).dropWhile xmlIsSpace
        match cs1 with
        | '=' :: cs2 =>
          match cs2.dropWhile xmlIsSpace with
          | q :: cs3 =>
            if q == '"' || q == apos then
              let v := cs3.takeWhile (· ≠ q)
              match cs3.drop v.length with
              | _ :: cs4 =>
                (parseXmlAttrs fuel cs4).map fun (rest, cs5) =>
                  ((String.mk nm, xmlDecode v) :: rest, cs5)
              | [] => none
            else none
          | [] => none
        | _ => none
      else some ([], cs0)
    | [] => some ([], cs0)
termination_by structural fuel => fuel

mutual

/-- Parse one element starting at `<`; returns the element (tail empty)
and the remaining input. -/
def parseXmlElem : Nat → List Char → Option (XElem × List Char)
  | 0, _ => none
  | fuel + 1, cs =>
    match cs with
    | '<' :: cs1 =>
      match cs1 with
      | c :: _ =>
        if xmlNameStart c then
          let nm := cs1.takeWhile xmlNameChar
          let cs2 := cs1.dropWhile xmlNameChar
          match parseXmlAttrs (fuel + 1) cs2 with
          | some (attrs, cs3) =>
            match cs3 with
            | '/' :: '>' :: cs4 => some (.mk (String.mk nm) attrs "" [] "", cs4)
            | '>' :: cs4 =>
              let text := cs4.takeWhile (· ≠ '<')
              match parseXmlContent fuel (String.mk nm) (cs4.drop text.length) with
              | some (children, cs5) =>
                some (.mk (String.mk nm) attrs (xmlDecode text) children "", cs5)
              | none => none
            | _ => none
          | none => none
        else none
      | [] => none
    | _ => none
termination_by structural fuel _ => fuel

/-- Parse element content after the leading text run: a sequence of children
with tails, terminated by the matching close tag of `tag`. -/
def parseXmlContent : Nat → String → List Char → Option (List XElem × List Char)
  | 0, _, _ => none
  | fuel + 1, tag, cs =>
    match cs with
    | '<' :: '/' :: cs1 =>
      let nm := cs1.takeWhile xmlNameChar
      let cs2 := (cs1.dropWhile xmlNameChar).dropWhile xmlIsSpace
      if String.mk nm = tag then
        match cs2 with
        | '>' :: cs3 => some ([], cs3)
        | _ => none
      else none
    | '<' :: _ =>
      match parseXmlElem fuel cs with
      | some (child, cs1) =>
        let tail := cs1.takeWhile (· ≠ '<')
        match parseXmlContent fuel tag (cs1.drop tail.length) with
        | some (children, cs2) =>
          some (xmlSetTail child (xmlDecode tail) :: children, cs2)
        | none => none
      | none => none
    | _ => none
termination_by structural fuel _ _ => fuel

end

/-- `xml.etree.ElementTree.fromstring`: parse a whole document; leading and
trailing whitespace around the single root element is allowed, anything else
is a `ParseError` (modelled as `none`). -/
def fromstring (s : String) : Option XElem :=
  let cs := s.data.dropWhile xmlIsSpace
  match parseXmlElem (cs.length + 1) cs with
  | some (root, rest) => if rest.dropWhile xmlIsSpace = [] then some root else none
  | none => none

/- ===== src/converter/ast_parser.py ===== -/

/-- The AST node of `ast_parser.Node`: the dataclass's `kind` field is the
constructor; `text` nodes carry only text, `element` nodes carry tag,
attributes and ordered children, exactly the shapes the parser constructs. -/
inductive Node where
  | text (s : String)
  | element (tag : String) (attrs : List (String × String)) (children : List Node)

/-- Python `dict` insertion with overwrite-in-place semantics. -/
def dictInsert (d : List (String × String)) (k v : String) : List (String × String) :=
  if d.any (fun p => p.1 == k) then
    d.map fun p => if p.1 == k then (k, v) else p
  else d ++ [(k, v)]

/-- The dict comprehension `{k.lower(): v for k, v in elem.attrib.items()}`. -/
def lowerKeysDict (attrs : List (String × String)) : List (String × String) :=
  attrs.foldl (fun d p => dictInsert d (pyLower p.1) p.2) []

/-- Python `d.get(k)` on the attribute dict. -/
def dictGet (d : List (String × String)) (k : String) : Option String :=
  (d.find? (fun p => p.1 == k)).map Prod.snd

/-- Python `d.get(k, dflt)`. -/
def dictGetD (d : List (String × String)) (k dflt : String) : String :=
  match dictGet d k with
  | some v => v
  | none => dflt

/-- Python `d.get(k) or ""` (`None` and the empty string both yield `""`). -/
def dictGetOrEmpty (d : List (String × String)) (k : String) : String :=
  dictGetD d k ""

mutual

/-- `ast_parser._elem_to_node`: leading text becomes a text child, every child
is converted and its tail (if truthy) appended to the parent's children;
tag and attribute keys are lowercased. -/
def _elem_to_node : XElem → Node
  | .mk tag attrs text children _ =>
    Node.element (pyLower tag) (lowerKeysDict attrs)
      ((if text ≠ "" then [Node.text text] else []) ++ elemChildrenNodes children)

/-- The child loop of `_elem_to_node`. -/
def elemChildrenNodes : List XElem → List Node
  | [] => []
  | c :: cs =>
    (_elem_to_node c :: (if xmlTail c ≠ "" then [Node.text (xmlTail c)] else []))
      ++ elemChildrenNodes cs

end

/-- `ast_parser.parse_edxml_to_ast`: empty input yields a bare `document` node;
otherwise parse strictly, and on `ParseError` re-parse the input wrapped in a
`<document>` root.  The second `ET.fromstring` call is not guarded by the
`try`, so its failure propagates (modelled by `Except.error`). -/
def parse_edxml_to_ast (xml : String) : Except String Node :=
  if xml = "" then .ok (Node.element "document" [] [])
  else
    match fromstring xml with
    | some root => .ok (_elem_to_node root)
    | none =>
      match fromstring ("<document>" ++ xml ++ "</document>") with
      | some root => .ok (_elem_to_node root)
      | none => .error "ParseError"

/- ===== src/converter/ast_renderer_md.py ===== -/

/-- The image fetch collaborator (`requests.get` + `raise_for_status`):
`none` models any raised exception, `some (bytes, contentTypeHeader)` a
successful 2xx response. -/
def Fetch : Type := String → Option (List Nat × Option String)

/-- `ast_renderer_md._download_image_as_data_uri`: on fetch success, build a
`data:` URI with the response `Content-Type`, falling back to
`mimetypes.guess_type`, and to `image/png` when the type is missing or not an
image; on any exception return the original `src`. -/
def _download_image_as_data_uri (fetch : Fetch) (src : String) : String :=
  match fetch src with
  | none => src
  | some (content, header) =>
    let mime0 : Option String :=
      match header with
      | some h => if h = "" then mimetypesGuess src else some h
      | none => mimetypesGuess src
    let mime : String :=
      match mime0 with
      | some m => if "image/".data.isPrefixOf m.data then m else "image/png"
      | none => "image/png"
    "data:" ++ mime ++ ";base64," ++ String.mk (b64Encode content)

/-- The text of the text-kind children of a node
(`"".join(c.text for c in children if c.kind == "text")`). -/
def textKindJoin (children : List Node) : String :=
  children.foldl
    (fun acc c => match c with | .text s => acc ++ s | _ => acc) ""

/-- The regex `re.sub(r"\s{2,}", " ", s)`: collapse each run of two or more
whitespace characters into a single space (runs of one are kept verbatim). -/
def collapseWsRuns : Nat → List Char → List Char
  | 0, cs => cs
  | _fuel + 1, [] => []
  | fuel + 1, c :: rest =>
    if pyIsSpace c && (match rest.head? with | some d => pyIsSpace d | none => false) then
      ' ' :: collapseWsRuns fuel (rest.dropWhile pyIsSpace)
    else c :: collapseWsRuns fuel rest

/-- One step of the web-snippet file loop: distribute a child's decoded content
into the html/css/js buckets. -/
def webSnippetBuckets (children : List Node) :
    List String × List String × List String :=
  children.foldl
    (fun (acc : List String × List String × List String) child =>
      match child with
      | .element tag attrs grandchildren =>
        if tag = "web-snippet-file" then
          let lang := pyLower (dictGetOrEmpty attrs "language")
          let content0 :=
            if grandchildren.isEmpty then "" else pyStrip (textKindJoin grandchildren)
          let content := pyUnescape content0
          if lang = "html" then (acc.1 ++ [content], acc.2.1, acc.2.2)
          else if lang = "css" then (acc.1, acc.2.1 ++ [content], acc.2.2)
          else if lang = "js" ∨ lang = "javascript" then
            (acc.1, acc.2.1, acc.2.2 ++ [content])
          else acc
        else acc
      | _ => acc)
    ([], [], [])

/-- Assemble the raw HTML fragment of a web snippet: html files, then a
`<style>` block for css files, then a `<script>` block for js files. -/
def webSnippetRawHtml (htmlParts cssParts jsParts : List String) : String :=
  let raw0 := if htmlParts.isEmpty then "" else String.intercalate "\n" htmlParts
  let raw1 :=
    if cssParts.isEmpty then raw0
    else raw0 ++ "\n<style>\n" ++ String.intercalate "\n" cssParts ++ "\n</style>"
  if jsParts.isEmpty then raw1
  else raw1 ++ "\n<script>\n" ++ String.intercalate "\n" jsParts ++ "\n</script>"

/-- `ast_renderer_md._render_web_snippet`. -/
def _render_web_snippet (node : Node) : String :=
  match node with
  | .text _ => ""
  | .element _ _ children =>
    let (htmlParts, cssParts, jsParts) := webSnippetBuckets children
    let rawHtml := webSnippetRawHtml htmlParts cssParts jsParts
    if rawHtml = "" then ""
    else
      let rawHtml := pyStrip rawHtml
      let lowerHtml := pyLower rawHtml
      if containsSub lowerHtml "<iframe" then "\n\n" ++ rawHtml ++ "\n\n"
      else
        let srcdoc0 := pyReplace (pyReplace rawHtml (String.mk [apos]) "&#39;") "\n" " "
        let srcdoc := pyStrip (String.mk (collapseWsRuns srcdoc0.data.length srcdoc0.data))
        "\n\n<iframe srcdoc=" ++ String.mk [apos] ++ srcdoc ++ String.mk [apos] ++
          " style=\"width: 100%; height: 450px; border: none;\"></iframe>\n\n"

/-- The heading level computation of `_render_node`:
`max(1, min(6, int(level)))` with `ValueError` defaulting to 1. -/
def headingLevelOf (level : String) : Nat :=
  match pyInt level with
  | some n => (max 1 (min 6 n)).toNat
  | none => 1

/-- Python truthiness for `attrs.get(k)` results: `None` and `""` are falsy. -/
def optTruthy (o : Option String) : Option String :=
  match o with
  | some "" => none
  | x => x

/-- The code text of a `snippet` node: text content of its `snippet-file`
children joined with newlines. -/
def snippetCodeParts (children : List Node) : List String :=
  children.filterMap fun child =>
    match child with
    | .element tag _ grandchildren =>
      if tag = "snippet-file" then some (textKindJoin grandchildren) else none
    | _ => none

mutual

/-- `ast_renderer_md._render_node`: per-tag dispatch, in source order; unknown
tags render their children transparently. -/
def _render_node (fetch : Fetch) : Node → String
  | .text s => htmlEscape s
  | .element tag attrs children =>
    if tag = "document" then _render_children fetch children
    else if tag = "paragraph" then "<p>" ++ _render_children fetch children ++ "</p>"
    else if tag = "heading" then
      let lvl := headingLevelOf (dictGetD attrs "level" "1")
      "<h" ++ toString lvl ++ ">" ++ _render_children fetch children ++
        "</h" ++ toString lvl ++ ">"
    else if tag = "break" then "<br />"
    else if tag = "image" then
      let src := dictGetOrEmpty attrs "src"
      if src = "" then ""
      else
        let dataUri := _download_image_as_data_uri fetch src
        let parts := ["src=\"" ++ dataUri ++ "\"", "alt=\"\""]
        let parts :=
          match optTruthy (dictGet attrs "width") with
          | some w => parts ++ ["width=\"" ++ w ++ "\""]
          | none => parts
        let parts :=
          match optTruthy (dictGet attrs "height") with
          | some h => parts ++ ["height=\"" ++ h ++ "\""]
          | none => parts
        "<img " ++ String.intercalate " " parts ++ " />"
    else if tag = "list" then
      let styleVal := pyLower (dictGetOrEmpty attrs "style")
      let listTag := if styleVal = "number" then "ol" else "ul"
      "<" ++ listTag ++ ">" ++ _render_children fetch children ++ "</" ++ listTag ++ ">"
    else if tag = "list-item" then "<li>" ++ _render_children fetch children ++ "</li>"
    else if tag = "bold" then "<strong>" ++ _render_children fetch children ++ "</strong>"
    else if tag = "italic" then "<em>" ++ _render_children fetch children ++ "</em>"
    else if tag = "underline" then "<u>" ++ _render_children fetch children ++ "</u>"
    else if tag = "blockquote" ∨ tag = "quote" then
      "<blockquote>" ++ _render_children fetch children ++ "</blockquote>"
    else if tag = "code" then "<code>" ++ _render_children fetch children ++ "</code>"
    else if tag = "pre" then
      "<pre><code>" ++ _render_children fetch children ++ "</code></pre>"
    else if tag = "iframe" then
      let parts := attrs.map fun p => p.1 ++ "=\"" ++ htmlEscape p.2 ++ "\""
      let attrsStr := if parts.isEmpty then "" else " " ++ String.intercalate " " parts
      "<iframe" ++ attrsStr ++ ">" ++ _render_children fetch children ++ "</iframe>"
    else if tag = "link" then
      let href := dictGetOrEmpty attrs "href"
      "<a href=\"" ++ htmlEscape href ++ "\">" ++ _render_children fetch children ++ "</a>"
    else if tag = "snippet" then
      let lang := pyStrip (dictGetOrEmpty attrs "language")
      let codeRaw := String.mk
        (stripCharList '\n' (String.intercalate "\n" (snippetCodeParts children)).data)
      let codeHtml := htmlEscape (pyUnescape codeRaw)
      let classAttr := if lang ≠ "" then " class=\"language-" ++ lang ++ "\"" else ""
      "<pre><code" ++ classAttr ++ ">" ++ codeHtml ++ "</code></pre>"
    else if tag = "web-snippet" then _render_web_snippet (.element tag attrs children)
    else if tag = "spoiler" then
      let inner := pyStrip (_render_children fetch children)
      "\n\n<details><summary>Expand</summary>\n" ++ inner ++ "\n</details>\n\n"
    else _render_children fetch children

/-- `ast_renderer_md._render_children`: concatenation of rendered children. -/
def _render_children (fetch : Fetch) : List Node → String
  | [] => ""
  | c :: cs => _render_node fetch c ++ _render_children fetch cs

end

/-- `ast_renderer_md.ast_to_html`. -/
def ast_to_html (fetch : Fetch) (node : Node) : String := _render_node fetch node

/- ===== ast_renderer_md._post_process_markdown ===== -/

/-- Left brace character. -/
def lbrace : Char := Char.ofNat 123

/-- Right brace character. -/
def rbrace : Char := Char.ofNat 125

/-- Split at the first occurrence of a (nonempty) pattern:
returns the part before it and the part after it. -/
def splitFirstSub (pat : List Char) : List Char → Option (List Char × List Char)
  | [] => none
  | c :: rest =>
    if pat.isPrefixOf (c :: rest) then some ([], (c :: rest).drop pat.length)
    else (splitFirstSub pat rest).map fun p => (c :: p.1, p.2)

/-- `re.search(r'key..."', attrs)` for the `width="([^"]+)"`-shaped searches:
find the first occurrence of `key` followed by at least one non-quote
character and a closing quote. -/
def searchAttrVal (key : List Char) : List Char → Option String
  | [] => none
  | c :: rest =>
    if key.isPrefixOf (c :: rest) then
      let after := (c :: rest).drop key.length
      let v := after.takeWhile (· ≠ '"')
      if v ≠ [] ∧ (after.drop v.length).head? = some '"' then some (String.mk v)
      else searchAttrVal key rest
    else searchAttrVal key rest

/-- `_img_md_to_html`: rebuild a literal `<img>` tag, keeping `width`/`height`
found in the brace-attribute text. -/
def _img_md_to_html (alt src attrs : String) : String :=
  let wAttr := match searchAttrVal "width=\"".data attrs.data with
    | some w => " width=\"" ++ w ++ "\""
    | none => ""
  let hAttr := match searchAttrVal "height=\"".data attrs.data with
    | some h => " height=\"" ++ h ++ "\""
    | none => ""
  "<img src=\"" ++ src ++ "\" alt=\"" ++ alt ++ "\"" ++ wAttr ++ hAttr ++ ">"

/-- Match the tail of `!\[(.*?)\]\((.*?)\)` after the leading `![`: the lazy
groups take the text up to the first `](` and from there up to the first `)`. -/
def findAltSrc (cs : List Char) : Option (List Char × List Char × List Char) :=
  match splitFirstSub "](".data cs with
  | none => none
  | some (pre, post) =>
    let srcRun := post.takeWhile (· ≠ ')')
    match post.drop srcRun.length with
    | _ :: rest => some (pre, srcRun, rest)
    | [] => none

/-- Match the optional `(\{[^}]*\})?` group; returns the matched group text
(with braces) and the rest. -/
def imgAttrsOpt (cs : List Char) : String × List Char :=
  match cs with
  | c :: rest =>
    if c = lbrace then
      let inner := rest.takeWhile (· ≠ rbrace)
      match rest.drop inner.length with
      | _ :: rest2 => (String.mk (c :: inner ++ [rbrace]), rest2)
      | [] => ("", cs)
    else ("", cs)
  | [] => ("", cs)

/-- The substitution `re.sub(r'!\[(.*?)\]\((.*?)\)(\{[^}]*\})?', _img_md_to_html, md, flags=re.DOTALL)`. -/
def imgMdSubAux : Nat → List Char → List Char
  | 0, cs => cs
  | fuel + 1, [] => []
  | fuel + 1, c :: rest =>
    if c = '!' then
      match rest with
      | '[' :: rest2 =>
        match findAltSrc rest2 with
        | some (alt, src, rest3) =>
          let (attrs, rest4) := imgAttrsOpt rest3
          (_img_md_to_html (String.mk alt) (String.mk src) attrs).data ++
            imgMdSubAux fuel rest4
        | none => c :: imgMdSubAux fuel rest
      | _ => c :: imgMdSubAux fuel rest
    else c :: imgMdSubAux fuel rest

/-- Markdown-image-to-`<img>` substitution over a string. -/
def imgMdSub (s : String) : String := String.mk (imgMdSubAux s.data.length s.data)

/-- The pattern `{.underline}` (12 characters). -/
def underlinePat : List Char := lbrace :: ".underline".data ++ [rbrace]

/-- The substitution `re.sub(r"\[([^\]]+)\]\s*\{\.underline\}", r"<u>\1</u>", md)`. -/
def underlineSubAux : Nat → List Char → List Char
  | 0, cs => cs
  | fuel + 1, [] => []
  | fuel + 1, c :: rest =>
    if c = '[' then
      let inner := rest.takeWhile (· ≠ ']')
      if inner ≠ [] then
        match rest.drop inner.length with
        | _ :: rest2 =>
          let rest3 := rest2.dropWhile pyIsSpace
          if underlinePat.isPrefixOf rest3 then
            "<u>".data ++ inner ++ "</u>".data ++
              underlineSubAux fuel (rest3.drop underlinePat.length)
          else c :: underlineSubAux fuel rest
        | [] => c :: underlineSubAux fuel rest
      else c :: underlineSubAux fuel rest
    else c :: underlineSubAux fuel rest

/-- Underline-span substitution over a string. -/
def underlineSub (s : String) : String := String.mk (underlineSubAux s.data.length s.data)

/-- Match for `re.sub(r"^(\s*)(\d+)\.\s+-\s+", r"\1\2. ", line)`. -/
def listFixNumMatch (cs : List Char) : Option (List Char) :=
  let ws := cs.takeWhile pyIsSpace
  let l1 := cs.dropWhile pyIsSpace
  let ds := l1.takeWhile Char.isDigit
  if ds.isEmpty then none
  else
    match l1.dropWhile Char.isDigit with
    | '.' :: l3 =>
      if (l3.takeWhile pyIsSpace).isEmpty then none
      else
        match l3.dropWhile pyIsSpace with
        | '-' :: l5 =>
          if (l5.takeWhile pyIsSpace).isEmpty then none
          else some (ws ++ ds ++ '.' :: ' ' :: l5.dropWhile pyIsSpace)
        | _ => none
    | _ => none

/-- Duplicated numbered-list marker fix. -/
def listFixNum (l : String) : String :=
  match listFixNumMatch l.data with
  | some r => String.mk r
  | none => l

/-- Match for `re.sub(r"^(\s*)-\s+-\s+", r"\1- ", line)`. -/
def listFixDashMatch (cs : List Char) : Option (List Char) :=
  let ws := cs.takeWhile pyIsSpace
  match cs.dropWhile pyIsSpace with
  | '-' :: l2 =>
    if (l2.takeWhile pyIsSpace).isEmpty then none
    else
      match l2.dropWhile pyIsSpace with
      | '-' :: l4 =>
        if (l4.takeWhile pyIsSpace).isEmpty then none
        else some (ws ++ '-' :: ' ' :: l4.dropWhile pyIsSpace)
      | _ => none
  | _ => none

/-- Duplicated bulleted-list marker fix. -/
def listFixDash (l : String) : String :=
  match listFixDashMatch l.data with
  | some r => String.mk r
  | none => l

/-- The substitution `re.sub(r"(\\)(?=\*\*|__)", "", line)`: drop every
backslash that directly precedes `**` or `__`. -/
def stripBoldBackAux : List Char → List Char
  | [] => []
  | c :: rest =>
    if c = '\\' ∧ ("**".data.isPrefixOf rest ∨ "__".data.isPrefixOf rest) then
      stripBoldBackAux rest
    else c :: stripBoldBackAux rest

/-- Backslash-before-bold/italic removal on a line. -/
def stripBoldBack (l : String) : String := String.mk (stripBoldBackAux l.data)

/-- The substitution `re.sub(r"\\(?=\[)", "", line)` (and the `\]` variant):
drop every backslash directly preceding the target character. -/
def removeBackBeforeAux (t : Char) : List Char → List Char
  | [] => []
  | c :: rest =>
    if c = '\\' ∧ rest.head? = some t then removeBackBeforeAux t rest
    else c :: removeBackBeforeAux t rest

/-- Math-trigger backslash removal before `[` and `]`. -/
def mathTriggers (l : String) : String :=
  String.mk (removeBackBeforeAux ']' (removeBackBeforeAux '[' l.data))

/-- The guarded `re.sub(r"\\\s*$", "", line)`: when the right-stripped line ends
in a backslash, the sub removes that final backslash and the trailing
whitespace after it. -/
def dropTrailBack (l : String) : String := String.mk (rstripList l.data).dropLast

/-- The line-by-line cleanup loop of `_post_process_markdown`: fenced code
blocks pass through; empty HTML comment lines are dropped; list-marker,
backslash and math-trigger fixes apply elsewhere. -/
def cleanLines (inCode : Bool) : List String → List String
  | [] => []
  | l :: ls =>
    let stripped := pyStrip l
    if "```".data.isPrefixOf stripped.data then l :: cleanLines (!inCode) ls
    else if inCode then l :: cleanLines inCode ls
    else if stripped = "<!-- -->" then cleanLines inCode ls
    else
      let l1 := listFixNum l
      let l2 := listFixDash l1
      let l3 := stripBoldBack l2
      let l4 := if (rstripList l3.data).getLast? = some '\\' then dropTrailBack l3 else l3
      let l5 := mathTriggers l4
      l5 :: cleanLines inCode ls

/-- `ast_renderer_md._post_process_markdown`. -/
def _post_process_markdown (md : String) : String :=
  if pyStrip md = "" then pyStrip md
  else
    let md1 := imgMdSub md
    let md2 := underlineSub md1
    let cleaned := cleanLines false (pySplitLines md2)
    pyStrip (String.intercalate "\n" cleaned)

/-- `ast_renderer_md.ast_to_markdown`, with the pandoc round trip
`_html_to_markdown_via_ast` as the external conversion boundary parameter
`convert`. -/
def ast_to_markdown (convert : String → String) (fetch : Fetch) (node : Node) : String :=
  let htmlText := ast_to_html fetch node
  if pyStrip htmlText = "" then ""
  else _post_process_markdown (convert htmlText)

/- ===== src/converters.py (shared with src/api_based.py for
   shift_markdown_headings and _convert_lists, which are identical there) ===== -/

/-- One match attempt of `^(#{1,6})\s+(.*)$` (MULTILINE) at a line start:
a run of one to six hashes, at least one whitespace character (which,
crucially, may be a newline), then the rest of the line.  Returns hash count,
the `(.*)` group, and the rest of the input after the match. -/
def matchHeading (cs : List Char) : Option (Nat × List Char × List Char) :=
  let k := (cs.takeWhile (· == '#')).length
  if 1 ≤ k ∧ k ≤ 6 then
    let r1 := cs.drop k
    let ws := r1.takeWhile pyIsSpace
    if ws.isEmpty then none
    else
      let r2 := r1.drop ws.length
      let text := r2.takeWhile (· ≠ '\n')
      some (k, text, r2.drop text.length)
  else none

/-- The replacement `"#" * min(len(hashes) + offset, 6) + " " + text`. -/
def replHeading (offset : Int) (k : Nat) (text : List Char) : List Char :=
  List.replicate (min ((k : Int) + offset) 6).toNat '#' ++ ' ' :: text

/-- The `re.sub` scan for `shift_markdown_headings`: a match is attempted only
at line starts (string start or just after a newline); the scan resumes right
after each match. -/
def shiftScanAux (offset : Int) : Nat → List Char → Bool → List Char
  | _, [], _ => []
  | 0, cs, _ => cs
  | fuel + 1, c :: rest, atStart =>
    if atStart then
      match matchHeading (c :: rest) with
      | some (k, text, restA) =>
        replHeading offset k text ++ shiftScanAux offset fuel restA false
      | none => c :: shiftScanAux offset fuel rest (c == '\n')
    else c :: shiftScanAux offset fuel rest (c == '\n')

/-- `converters.shift_markdown_headings` (identical in `api_based.py`). -/
def shift_markdown_headings (md : String) (offset : Int := 1) : String :=
  String.mk (shiftScanAux offset md.data.length md.data true)

/-- A token of the `_convert_lists` tokenizer `</?list(?!-item)[^>]*>`:
an opener carries the tag body (between `list` and `>`) for the style search. -/
inductive ListTok where
  | openTok (body : List Char)
  | closeTok

/-- One match attempt of `</?list(?!-item)[^>]*>` at a `<`. -/
def listTokMatch (cs : List Char) : Option (ListTok × List Char) :=
  match cs with
  | '<' :: rest =>
    let isClose := rest.head? = some '/'
    let rest1 := if isClose then rest.tail else rest
    if "list".data.isPrefixOf rest1 then
      let rest2 := rest1.drop 4
      if "-item".data.isPrefixOf rest2 then none
      else
        let body := rest2.takeWhile (· ≠ '>')
        match rest2.drop body.length with
        | _ :: restAfter =>
          some ((if isClose then .closeTok else .openTok body), restAfter)
        | [] => none
    else none
  | _ => none

/-- `re.finditer` over the list-token pattern: a stream of literal characters
and tokens. -/
def listTokenizeAux : Nat → List Char → List (Sum Char ListTok)
  | 0, cs => cs.map Sum.inl
  | _fuel + 1, [] => []
  | fuel + 1, c :: rest =>
    if c = '<' then
      match listTokMatch (c :: rest) with
      | some (tok, restAfter) => Sum.inr tok :: listTokenizeAux fuel restAfter
      | none => Sum.inl c :: listTokenizeAux fuel rest
    else Sum.inl c :: listTokenizeAux fuel rest

/-- An emitted `<ol>`/`<ul>` wrapper tag. -/
inductive WrapItem where
  | openW (t : String)
  | closeW (t : String)

/-- The list type of an opener: `ol` iff `style="..."` is found in the tag and
lowercases to `number`, else `ul`. -/
def listTypeOf (body : List Char) : String :=
  let styleVal := match searchAttrVal "style=\"".data body with
    | some v => pyLower v
    | none => ""
  if styleVal = "number" then "ol" else "ul"

/-- The stack fold of `_convert_lists`: openers push and emit, closers pop and
emit the popped type (or `ul` on an empty stack); leftover stack entries are
closed at the end, innermost first. -/
def listFoldAux : List (Sum Char ListTok) → List String → List (Sum Char WrapItem)
  | [], stack => stack.map fun t => Sum.inr (.closeW t)
  | Sum.inl c :: rest, stack => Sum.inl c :: listFoldAux rest stack
  | Sum.inr .closeTok :: rest, stack =>
    match stack with
    | t :: stack2 => Sum.inr (.closeW t) :: listFoldAux rest stack2
    | [] => Sum.inr (.closeW "ul") :: listFoldAux rest []
  | Sum.inr (.openTok body) :: rest, stack =>
    let t := listTypeOf body
    Sum.inr (.openW t) :: listFoldAux rest (t :: stack)

/-- Render an emitted wrapper tag. -/
def renderWrapItem : WrapItem → String
  | .openW t => "<" ++ t ++ ">"
  | .closeW t => "</" ++ t ++ ">"

/-- The character/wrapper stream produced by `_convert_lists`. -/
def convertListsStream (text : String) : List (Sum Char WrapItem) :=
  listFoldAux (listTokenizeAux text.data.length text.data) []

/-- `converters._convert_lists` (identical in `api_based.py`). -/
def _convert_lists (text : String) : String :=
  String.mk ((convertListsStream text).flatMap fun s =>
    match s with
    | Sum.inl c => [c]
    | Sum.inr w => (renderWrapItem w).data)

/-- The `<ol>`/`<ul>` wrapper tags `_convert_lists` emits, in order. -/
def emittedWrappers (text : String) : List WrapItem :=
  (convertListsStream text).filterMap fun s =>
    match s with
    | Sum.inr w => some w
    | Sum.inl _ => none

/- ===== src/ed_client.py: EdClient.make_image_resolver ===== -/

/-- `EdClient.make_image_resolver(mode)(src)`, as a pure function of the fetch
collaborator.  `url` passes the source through with no fetch; `base64` fetches
and builds a data URI (the `filetype` byte-sniffing fallback is modelled by the
`application/octet-stream` default it ends at for non-image bytes); `file`
requires a writable `image_dir` — with none provided the source code leaves the
fallback `result = src`, which is the case modelled here, the filesystem write
being outside a shallow embedding of strings. -/
def make_image_resolver (mode0 : String) (fetch : Fetch) (src : String) : String :=
  let mode := pyLower (if mode0 = "" then "base64" else mode0)
  if src = "" then ""
  else if mode = "url" then src
  else if mode = "base64" then
    match fetch src with
    | some (content, header) =>
      let headerMime : Option String :=
        match header with
        | some h => if h = "" then none else some h
        | none => none
      let mime :=
        match headerMime with
        | some m => m
        | none =>
          match mimetypesGuess src with
          | some m => m
          | none => "application/octet-stream"
      "data:" ++ mime ++ ";base64," ++ String.mk (b64Encode content)
    | none => src
  else src

/- ===== converters.edxml_to_markdown: the regex pipeline ===== -/

/-- Case-insensitive literal-prefix test (for `re.IGNORECASE` literals;
the pattern is given lowercased). -/
def ciIsPrefixOf (pat cs : List Char) : Bool :=
  ((cs.take pat.length).map Char.toLower) == pat

/-- Split at the first case-insensitive occurrence of a pattern. -/
def splitFirstSubCi (pat : List Char) : List Char → Option (List Char × List Char)
  | [] => none
  | c :: rest =>
    if ciIsPrefixOf pat (c :: rest) then some ([], (c :: rest).drop pat.length)
    else (splitFirstSubCi pat rest).map fun p => (c :: p.1, p.2)

/-- `re.findall(r'<web-snippet-file[^>]*language="([^"]+)"[^>]*>(.*?)</web-snippet-file>', block, flags=re.DOTALL)`:
collect `(language, content)` pairs in document order. -/
def wsFileFindAll : Nat → List Char → List (String × String)
  | 0, _ => []
  | _fuel + 1, [] => []
  | fuel + 1, c :: rest =>
    let cs := c :: rest
    let openPat := "<web-snippet-file".data
    if openPat.isPrefixOf cs then
      let after := cs.drop openPat.length
      let tagRun := after.takeWhile (· ≠ '>')
      match searchAttrVal "language=\"".data tagRun with
      | some lang =>
        match after.drop tagRun.length with
        | _ :: r2 =>
          match splitFirstSub "</web-snippet-file>".data r2 with
          | some (content, restAfter) =>
            (lang, String.mk content) :: wsFileFindAll fuel restAfter
          | none => wsFileFindAll fuel rest
        | [] => wsFileFindAll fuel rest
      | none => wsFileFindAll fuel rest
    else wsFileFindAll fuel rest

/-- The bucket loop of `converters._web_snippet_repl`: unescape then strip each
file's content and distribute by lowercased language. -/
def webSnippetConvBuckets (files : List (String × String)) :
    List String × List String × List String :=
  files.foldl
    (fun (acc : List String × List String × List String) p =>
      let text := pyStrip (pyUnescape p.2)
      let lang := pyLower p.1
      if lang = "html" then (acc.1 ++ [pyStrip text], acc.2.1, acc.2.2)
      else if lang = "css" then (acc.1, acc.2.1 ++ [pyStrip text], acc.2.2)
      else if lang = "js" ∨ lang = "javascript" then
        (acc.1, acc.2.1, acc.2.2 ++ [pyStrip text])
      else acc)
    ([], [], [])

/-- The block built by `converters._web_snippet_repl` from a matched
`<web-snippet>...</web-snippet>` span: `none` when the bundle produced no
content (the snippet is dropped and no placeholder is registered), otherwise
the protected raw-HTML fragment (wrapped in an `iframe srcdoc` unless it
already contains an iframe). -/
def wsRepl (fullBlock : List Char) : Option String :=
  let files := wsFileFindAll fullBlock.length fullBlock
  let (htmlParts, cssParts, jsParts) := webSnippetConvBuckets files
  let rawHtml := webSnippetRawHtml htmlParts cssParts jsParts
  if rawHtml = "" then none
  else
    let rawHtml := pyStrip rawHtml
    let lowerHtml := pyLower rawHtml
    if containsSub lowerHtml "<iframe" then some ("\n\n" ++ rawHtml ++ "\n\n")
    else
      let srcdoc0 := pyReplace (pyReplace rawHtml (String.mk [apos]) "&#39;") "\n" " "
      let srcdoc := String.mk (collapseWsRuns srcdoc0.data.length srcdoc0.data)
      some ("\n\n<iframe srcdoc=" ++ String.mk [apos] ++ srcdoc ++ String.mk [apos] ++
        " style=\"width: 100%; height: 450px; border: none;\"></iframe>\n\n")

/-- The substitution `re.sub(r"<web-snippet[^>]*>.*?</web-snippet>", _web_snippet_repl, xml, flags=re.DOTALL | re.IGNORECASE)`,
threading the placeholder table. -/
def wsnipSubAux : Nat → List Char → List (String × String) →
    List Char × List (String × String)
  | 0, cs, blocks => (cs, blocks)
  | _fuel + 1, [], blocks => ([], blocks)
  | fuel + 1, c :: rest, blocks =>
    let cs := c :: rest
    let openPat := "<web-snippet".data
    if ciIsPrefixOf openPat cs then
      let after := cs.drop openPat.length
      let tagRun := after.takeWhile (· ≠ '>')
      match after.drop tagRun.length with
      | _ :: r2 =>
        match splitFirstSubCi "</web-snippet>".data r2 with
        | some (_, restAfter) =>
          let fullBlock := cs.take (cs.length - restAfter.length)
          match wsRepl fullBlock with
          | some finalBlock =>
            let ph := "EDRAWHTMLBLOCK_" ++ toString blocks.length
            let (out, blocks2) := wsnipSubAux fuel restAfter (blocks ++ [(ph, finalBlock)])
            (ph.data ++ out, blocks2)
          | none =>
            wsnipSubAux fuel restAfter blocks
        | none =>
          let (out, blocks2) := wsnipSubAux fuel rest blocks
          (c :: out, blocks2)
      | [] =>
        let (out, blocks2) := wsnipSubAux fuel rest blocks
        (c :: out, blocks2)
    else
      let (out, blocks2) := wsnipSubAux fuel rest blocks
      (c :: out, blocks2)

/-- The substitution `re.sub(r"<heading\s+level=\"(\d+)\"[^>]*>(.*?)</heading>", _heading_block, html_like, flags=re.DOTALL)`:
the replacement clamps the level with `min(max(level, 1), 6)`. -/
def headingSubAux : Nat → List Char → List Char
  | 0, cs => cs
  | _fuel + 1, [] => []
  | fuel + 1, c :: rest =>
    let cs := c :: rest
    let noMatch := fun _ : Unit => c :: headingSubAux fuel rest
    if "<heading".data.isPrefixOf cs then
      let after := cs.drop 8
      let ws := after.takeWhile pyIsSpace
      if ws.isEmpty then noMatch ()
      else
        let r1 := after.drop ws.length
        if "level=\"".data.isPrefixOf r1 then
          let r2 := r1.drop 7
          let ds := r2.takeWhile Char.isDigit
          if ds.isEmpty then noMatch ()
          else
            match r2.drop ds.length with
            | '"' :: r3 =>
              let tagRun := r3.takeWhile (· ≠ '>')
              match r3.drop tagRun.length with
              | _ :: r4 =>
                match splitFirstSub "</heading>".data r4 with
                | some (content, restAfter) =>
                  let level := min (max (pyIntDigitsVal ds) 1) 6
                  ("<h" ++ toString level ++ ">").data ++ content ++
                    ("</h" ++ toString level ++ ">").data ++ headingSubAux fuel restAfter
                | none => noMatch ()
              | [] => noMatch ()
            | _ => noMatch ()
        else noMatch ()
    else noMatch ()

/-- The substitution `re.sub(r"</?document[^>]*>", "", html_like)`. -/
def docTagSubAux : Nat → List Char → List Char
  | 0, cs => cs
  | _fuel + 1, [] => []
  | fuel + 1, c :: rest =>
    let noMatch := fun _ : Unit => c :: docTagSubAux fuel rest
    if c = '<' then
      let rest1 := if rest.head? = some '/' then rest.tail else rest
      if "document".data.isPrefixOf rest1 then
        let body := (rest1.drop 8).takeWhile (· ≠ '>')
        match (rest1.drop 8).drop body.length with
        | _ :: restAfter => docTagSubAux fuel restAfter
        | [] => noMatch ()
      else noMatch ()
    else noMatch ()

/-- `converters._image_repl` on the attribute text of a matched `<image...>`
tag: no `src` drops the tag; otherwise fetch and build a data URI (with the
`Content-Type` header, else `mimetypes.guess_type`, else
`application/octet-stream`), falling back to the raw `src` on any exception. -/
def _image_repl (fetch : Fetch) (attrs : List Char) : String :=
  match searchAttrVal "src=\"".data attrs with
  | none => ""
  | some src =>
    let dataUri :=
      match fetch src with
      | some (content, header) =>
        let headerMime : Option String :=
          match header with
          | some h => if h = "" then none else some h
          | none => none
        let mime :=
          match headerMime with
          | some m => m
          | none =>
            match mimetypesGuess src with
            | some m => m
            | none => "application/octet-stream"
        "data:" ++ mime ++ ";base64," ++ String.mk (b64Encode content)
      | none => src
    let wAttr := match searchAttrVal "width=\"".data attrs with
      | some w => " width=\"" ++ w ++ "\""
      | none => ""
    let hAttr := match searchAttrVal "height=\"".data attrs with
      | some h => " height=\"" ++ h ++ "\""
      | none => ""
    "<img src=\"" ++ dataUri ++ "\" alt=\"\"" ++ wAttr ++ hAttr ++ " />"

/-- The substitution `re.sub(r"<image([^>]*)\/?>", _image_repl, html_like, flags=re.IGNORECASE)`. -/
def imageSubAux (fetch : Fetch) : Nat → List Char → List Char
  | 0, cs => cs
  | _fuel + 1, [] => []
  | fuel + 1, c :: rest =>
    let cs := c :: rest
    if ciIsPrefixOf "<image".data cs then
      let after := cs.drop 6
      let attrs := after.takeWhile (· ≠ '>')
      match after.drop attrs.length with
      | _ :: restAfter => (_image_repl fetch attrs).data ++ imageSubAux fetch fuel restAfter
      | [] => c :: imageSubAux fetch fuel rest
    else c :: imageSubAux fetch fuel rest

/-- One match attempt of `<(strong|em|u)>([^<]*?)<br\s*/>\s*</\1>` at a `<`:
try the alternatives in pattern order. -/
def strongBrMatch (cs : List Char) : Option (List Char × List Char) :=
  ["strong", "em", "u"].firstM fun t =>
    let openTag := ("<" ++ t ++ ">").data
    if openTag.isPrefixOf cs then
      let after := cs.drop openTag.length
      let body := after.takeWhile (· ≠ '<')
      let a2 := after.drop body.length
      if "<br".data.isPrefixOf a2 then
        let a3 := (a2.drop 3).dropWhile pyIsSpace
        if "/>".data.isPrefixOf a3 then
          let a4 := (a3.drop 2).dropWhile pyIsSpace
          let closeTag := ("</" ++ t ++ ">").data
          if closeTag.isPrefixOf a4 then
            some (openTag ++ body ++ closeTag ++ "<br />".data, a4.drop closeTag.length)
          else none
        else none
      else none
    else none

/-- The substitution `re.sub(r"<(strong|em|u)>([^<]*?)<br\s*/>\s*</\1>", r"<\1>\2</\1><br />", html_like, flags=re.DOTALL)`. -/
def strongBrSubAux : Nat → List Char → List Char
  | 0, cs => cs
  | _fuel + 1, [] => []
  | fuel + 1, c :: rest =>
    match strongBrMatch (c :: rest) with
    | some (repl, restAfter) => repl ++ strongBrSubAux fuel restAfter
    | none => c :: strongBrSubAux fuel rest

/-- One match attempt of
`<snippet[^>]*?language="([^"]*)"[^>]*>\s*<snippet-file[^>]*?>(.*?)</snippet-file>\s*</snippet>`
(DOTALL) at a `<`; returns the `language` and code groups and the rest. -/
def snippetMatch (cs : List Char) : Option (String × List Char × List Char) :=
  if "<snippet".data.isPrefixOf cs then
    let after := cs.drop 8
    let tagRun := after.takeWhile (· ≠ '>')
    match splitFirstSub "language=\"".data tagRun with
    | some (_, afterKey) =>
      let v := afterKey.takeWhile (· ≠ '"')
      match afterKey.drop v.length with
      | '"' :: _ =>
        match after.drop tagRun.length with
        | _ :: r2 =>
          let r3 := r2.dropWhile pyIsSpace
          if "<snippet-file".data.isPrefixOf r3 then
            let a2 := r3.drop 13
            let tag2 := a2.takeWhile (· ≠ '>')
            match a2.drop tag2.length with
            | _ :: r4 =>
              match splitFirstSub "</snippet-file>".data r4 with
              | some (code, r5) =>
                let r6 := r5.dropWhile pyIsSpace
                if "</snippet>".data.isPrefixOf r6 then
                  some (String.mk v, code, r6.drop 10)
                else none
              | none => none
            | [] => none
          else none
        | [] => none
      | _ => none
    | none => none
  else none

/-- `converters._snippet_repl`: decode the code payload and re-escape it inside
`<pre><code>` with an optional `language-...` class. -/
def _snippet_repl (lang : String) (code : List Char) : String :=
  let codeRaw := pyUnescape (String.mk (stripCharList '\n' code))
  let codeHtml := htmlEscape codeRaw
  let langClass := pyStrip lang
  let classAttr :=
    if langClass ≠ "" then " class=\"language-" ++ langClass ++ "\"" else ""
  "<pre><code" ++ classAttr ++ ">" ++ codeHtml ++ "</code></pre>"

/-- The snippet substitution of `edxml_to_markdown`. -/
def snippetSubAux : Nat → List Char → List Char
  | 0, cs => cs
  | _fuel + 1, [] => []
  | fuel + 1, c :: rest =>
    match snippetMatch (c :: rest) with
    | some (lang, code, restAfter) =>
      (_snippet_repl lang code).data ++ snippetSubAux fuel restAfter
    | none => c :: snippetSubAux fuel rest

/-- The substitution `re.sub(r"<link\s+href=\"([^\"]+)\"\s*>", r'<a href="\1">', html_like)`. -/
def linkSubAux : Nat → List Char → List Char
  | 0, cs => cs
  | _fuel + 1, [] => []
  | fuel + 1, c :: rest =>
    let cs := c :: rest
    let noMatch := fun _ : Unit => c :: linkSubAux fuel rest
    if "<link".data.isPrefixOf cs then
      let after := cs.drop 5
      let ws := after.takeWhile pyIsSpace
      if ws.isEmpty then noMatch ()
      else
        let r1 := after.drop ws.length
        if "href=\"".data.isPrefixOf r1 then
          let r2 := r1.drop 6
          let v := r2.takeWhile (· ≠ '"')
          if v.isEmpty then noMatch ()
          else
            match r2.drop v.length with
            | _ :: r3 =>
              match r3.dropWhile pyIsSpace with
              | '>' :: restAfter =>
                ("<a href=\"" ++ String.mk v ++ "\">").data ++ linkSubAux fuel restAfter
              | _ => noMatch ()
            | [] => noMatch ()
        else noMatch ()
    else noMatch ()

/-- The substitution `re.sub(r"<spoiler>(.*?)</spoiler>", _spoiler_repl, html_like, flags=re.IGNORECASE | re.DOTALL)`,
threading the spoiler placeholder table. -/
def spoilerSubAux : Nat → List Char → List (String × String) →
    List Char × List (String × String)
  | 0, cs, blocks => (cs, blocks)
  | _fuel + 1, [], blocks => ([], blocks)
  | fuel + 1, c :: rest, blocks =>
    let cs := c :: rest
    if ciIsPrefixOf "<spoiler>".data cs then
      match splitFirstSubCi "</spoiler>".data (cs.drop 9) with
      | some (inner, restAfter) =>
        let ph := "EDSPOILERBLOCK_" ++ toString blocks.length
        let spoilerHtml := "\n\n<details><summary>Expand</summary>\n" ++
          pyStrip (String.mk inner) ++ "\n</details>\n\n"
        let (out, blocks2) := spoilerSubAux fuel restAfter (blocks ++ [(ph, spoilerHtml)])
        (ph.data ++ out, blocks2)
      | none =>
        let (out, blocks2) := spoilerSubAux fuel rest blocks
        (c :: out, blocks2)
    else
      let (out, blocks2) := spoilerSubAux fuel rest blocks
      (c :: out, blocks2)

/-- The substitution `re.sub(r"(?<!\()<(https?://[^ >]+)>", r"\1", md)`:
drop the angle brackets of pandoc autolinks not already inside `](...)`. -/
def autolinkSubAux : Nat → Option Char → List Char → List Char
  | 0, _, cs => cs
  | _fuel + 1, _, [] => []
  | fuel + 1, prev, c :: rest =>
    if c = '<' ∧ prev ≠ some '(' then
      if "http://".data.isPrefixOf rest ∨ "https://".data.isPrefixOf rest then
        let run := rest.takeWhile fun d => d ≠ ' ' && d ≠ '>'
        match rest.drop run.length with
        | '>' :: r2 => run ++ autolinkSubAux fuel (some '>') r2
        | _ => c :: autolinkSubAux fuel (some c) rest
      else c :: autolinkSubAux fuel (some c) rest
    else c :: autolinkSubAux fuel (some c) rest

/-- The negative lookahead of `_escape_loose_angles`:
does `<` start an HTML-shaped tag `/?[A-Za-z][A-Za-z0-9\-]*(?:\s[^>]*)?>`? -/
def looseAngleTagLook (cs : List Char) : Bool :=
  let cs1 := if cs.head? = some '/' then cs.tail else cs
  match cs1 with
  | c :: r =>
    if c.isAlpha then
      match r.dropWhile (fun d => d.isAlphanum || d == '-') with
      | '>' :: _ => true
      | d :: r3 =>
        if pyIsSpace d then
          match r3.dropWhile (· ≠ '>') with
          | '>' :: _ => true
          | _ => false
        else false
      | [] => false
    else false
  | [] => false

/-- `converters._escape_loose_angles` applied to one line:
`re.sub(r"<(?!/?[A-Za-z][A-Za-z0-9\-]*(?:\s[^>]*)?>)([^>]*)>", repl, line)`
with replacement `\<{inner}>`. -/
def looseAnglesAux : Nat → List Char → List Char
  | 0, cs => cs
  | _fuel + 1, [] => []
  | fuel + 1, c :: rest =>
    if c = '<' then
      if looseAngleTagLook rest then c :: looseAnglesAux fuel rest
      else
        let inner := rest.takeWhile (· ≠ '>')
        match rest.drop inner.length with
        | _ :: restAfter =>
          '\\' :: '<' :: inner ++ '>' :: looseAnglesAux fuel restAfter
        | [] => c :: looseAnglesAux fuel rest
    else c :: looseAnglesAux fuel rest

/-- `converters._escape_loose_angles`. -/
def _escape_loose_angles (l : String) : String :=
  String.mk (looseAnglesAux l.data.length l.data)

/-- The line-by-line cleanup loop of `converters.edxml_to_markdown`: the same
fixes as the renderer post-processor plus the loose-angle escaping. -/
def cleanLinesConv (inCode : Bool) : List String → List String
  | [] => []
  | l :: ls =>
    let stripped := pyStrip l
    if "```".data.isPrefixOf stripped.data then l :: cleanLinesConv (!inCode) ls
    else if inCode then l :: cleanLinesConv inCode ls
    else if stripped = "<!-- -->" then cleanLinesConv inCode ls
    else
      let l1 := listFixNum l
      let l2 := listFixDash l1
      let l3 := stripBoldBack l2
      let l4 := if (rstripList l3.data).getLast? = some '\\' then dropTrailBack l3 else l3
      let l5 := mathTriggers l4
      let l6 := _escape_loose_angles l5
      l6 :: cleanLinesConv inCode ls

/-- Consume a maximal run of case-insensitive `<u>`/`<strong>`/`<em>` openers. -/
def ciTagRunOpen : Nat → List Char → List Char
  | 0, cs => cs
  | fuel + 1, cs =>
    if ciIsPrefixOf "<u>".data cs then ciTagRunOpen fuel (cs.drop 3)
    else if ciIsPrefixOf "<strong>".data cs then ciTagRunOpen fuel (cs.drop 8)
    else if ciIsPrefixOf "<em>".data cs then ciTagRunOpen fuel (cs.drop 4)
    else cs

/-- Consume a maximal run of case-insensitive `</u>`/`</strong>`/`</em>` closers. -/
def ciTagRunClose : Nat → List Char → List Char
  | 0, cs => cs
  | fuel + 1, cs =>
    if ciIsPrefixOf "</u>".data cs then ciTagRunClose fuel (cs.drop 4)
    else if ciIsPrefixOf "</strong>".data cs then ciTagRunClose fuel (cs.drop 9)
    else if ciIsPrefixOf "</em>".data cs then ciTagRunClose fuel (cs.drop 5)
    else cs

/-- `re.findall(r"</?(?:u|strong|em)>", span, flags=re.IGNORECASE)`: the style
tags of a matched span, in order, with their original text. -/
def tagFindAllCi : Nat → List Char → List String
  | 0, _ => []
  | _fuel + 1, [] => []
  | fuel + 1, c :: rest =>
    let cs := c :: rest
    let hit := ["</strong>", "</em>", "</u>", "<strong>", "<em>", "<u>"].firstM
      fun t => if ciIsPrefixOf t.data cs then some t.data.length else none
    match hit with
    | some n => String.mk (cs.take n) :: tagFindAllCi fuel (cs.drop n)
    | none => tagFindAllCi fuel rest

/-- The tail of the `_fix_interleaved_html_styles` pattern after the inner text
group: optional style openers, `\*\*?`, optional style closers, then
`\]\(([^)]+)\)`; returns the url group and the rest. -/
def interRestMatch (r : List Char) : Option (List Char × List Char) :=
  let a1 := ciTagRunOpen r.length r
  let starsLen :=
    if "**".data.isPrefixOf a1 then 2
    else if "*".data.isPrefixOf a1 then 1
    else 0
  if starsLen = 0 then none
  else
    let a2 := a1.drop starsLen
    let a3 := ciTagRunClose a2.length a2
    match a3 with
    | ']' :: '(' :: a4 =>
      let url := a4.takeWhile (· ≠ ')')
      if url.isEmpty then none
      else
        match a4.drop url.length with
        | _ :: restFinal => some (url, restFinal)
        | [] => none
    | _ => none

/-- The lazy inner-text search of `_fix_interleaved_html_styles`: grow the
non-`]` inner group one character at a time (shortest first), checking the
rest-pattern after each character. -/
def interInner : Nat → List Char → List Char →
    Option (List Char × List Char × List Char)
  | 0, _, _ => none
  | fuel + 1, acc, r =>
    if acc ≠ [] then
      match interRestMatch r with
      | some (url, rest) => some (acc.reverse, url, rest)
      | none =>
        match r with
        | c :: r2 => if c = ']' then none else interInner fuel (c :: acc) r2
        | [] => none
    else
      match r with
      | c :: r2 => if c = ']' then none else interInner fuel (c :: acc) r2
      | [] => none

/-- One match attempt of the `_fix_interleaved_html_styles` pattern
`{tag_open}\*\*\[?{tag_close}?([^\]]+?){tag_open}?\*\*?{tag_close}?\]\(([^)]+)\)`
(IGNORECASE): leading style openers are consumed greedily, the mandatory `**`
and optional `[` follow, optional closers, then the lazy inner text and the
rest-pattern.  The replacement rebuilds `[opening inner closing](url)` from all
style tags found in the matched span. -/
def interMatch (cs : List Char) : Option (List Char × List Char) :=
  let r1 := ciTagRunOpen cs.length cs
  if "**".data.isPrefixOf r1 then
    let r2 := r1.drop 2
    let r3 := if r2.head? = some '[' then r2.tail else r2
    let r4 := ciTagRunClose r3.length r3
    match interInner r4.length [] r4 with
    | some (inner, url, rest) =>
      let matched := cs.take (cs.length - rest.length)
      let styleTags := tagFindAllCi matched.length matched
      let opening := String.join (styleTags.filter fun t => ¬ "</".data.isPrefixOf t.data)
      let closing := String.join ((styleTags.reverse).filter fun t => "</".data.isPrefixOf t.data)
      some (("[" ++ opening ++ String.mk inner ++ closing ++ "](" ++
        String.mk url ++ ")").data, rest)
    | none => none
  else none

/-- The substitution `pattern.sub(rebuild, text)` of
`converters._fix_interleaved_html_styles`. -/
def fixInterleavedAux : Nat → List Char → List Char
  | 0, cs => cs
  | _fuel + 1, [] => []
  | fuel + 1, c :: rest =>
    match interMatch (c :: rest) with
    | some (repl, restAfter) => repl ++ fixInterleavedAux fuel restAfter
    | none => c :: fixInterleavedAux fuel rest

/-- `converters._fix_interleaved_html_styles`. -/
def _fix_interleaved_html_styles (s : String) : String :=
  String.mk (fixInterleavedAux s.data.length s.data)

/-- The state after step 1–2 of `converters.edxml_to_markdown`: the canonical
HTML-ish markup handed to pandoc, and the web-snippet and spoiler placeholder
tables. -/
structure ConvStage1 where
  htmlLike : String
  webBlocks : List (String × String)
  spoilerBlocks : List (String × String)

/-- Steps 1–2 of `converters.edxml_to_markdown`: protect web snippets behind
placeholders, then map EdXML tags to HTML-ish markup (headings, document root,
paragraphs, breaks, images, lists, inline styles, snippets, links), and protect
spoilers behind placeholders. -/
def edxmlStage1 (fetch : Fetch) (xml : String) : ConvStage1 :=
  let (xp, webBlocks) := wsnipSubAux xml.data.length xml.data []
  let h1 := headingSubAux xp.length xp
  let h2 := docTagSubAux h1.length h1
  let h3 := pyReplace (pyReplace (String.mk h2) "<paragraph" "<p") "</paragraph>" "</p>"
  let h4 := pyReplace (pyReplace h3 "<break>" "<br />") "</break>" ""
  let h5 := imageSubAux fetch h4.data.length h4.data
  let h6 := _convert_lists (String.mk h5)
  let h7 := pyReplace (pyReplace h6 "<list-item" "<li") "</list-item>" "</li>"
  let h8 := pyReplace (pyReplace (pyReplace (pyReplace (pyReplace (pyReplace h7
    "<bold>" "<strong>") "</bold>" "</strong>") "<italic>" "<em>")
    "</italic>" "</em>") "<underline>" "<u>") "</underline>" "</u>"
  let h9 := strongBrSubAux h8.data.length h8.data
  let h10 := snippetSubAux h9.length h9
  let h11 := linkSubAux h10.length h10
  let h12 := pyReplace (String.mk h11) "</link>" "</a>"
  let (h13, spoilerBlocks) := spoilerSubAux h12.data.length h12.data []
  { htmlLike := String.mk h13, webBlocks := webBlocks, spoilerBlocks := spoilerBlocks }

/-- Steps after the pandoc call in `converters.edxml_to_markdown`: autolink
fix, markdown-image and underline rewrites, the line cleanup loop, placeholder
restoration (web snippets then spoilers, in insertion order), and the
interleaved-style link repair. -/
def edxmlPost (md0 : String) (webBlocks spoilerBlocks : List (String × String)) : String :=
  let m1 := autolinkSubAux md0.data.length none md0.data
  let m2 := imgMdSub (String.mk m1)
  let m3 := underlineSub m2
  let m4 := pyStrip (String.intercalate "\n" (cleanLinesConv false (pySplitLines m3)))
  let m5 := webBlocks.foldl (fun acc p => pyReplace acc p.1 p.2) m4
  let m6 := spoilerBlocks.foldl (fun acc p => pyReplace acc p.1 p.2) m5
  pyStrip (_fix_interleaved_html_styles m6)

/-- `converters.edxml_to_markdown`, with the pandoc call
`pypandoc.convert_text(html_like, "md", format="html", ...)` as the external
conversion boundary parameter `convert` and the image fetch as `fetch`. -/
def edxml_to_markdown (convert : String → String) (fetch : Fetch) (xml : String) : String :=
  if xml = "" then ""
  else
    let st := edxmlStage1 fetch xml
    edxmlPost (convert st.htmlLike) st.webBlocks st.spoilerBlocks

/- ===== Claim-support definitions ===== -/

/-- Whether an `Except` result is a normal return (a Python call that did not
raise). -/
def exceptOk : Except String Node → Bool
  | .ok _ => true
  | .error _ => false

/-- A fetch collaborator whose every request raises (network unavailable). -/
def fetchNone : Fetch := fun _ => none

/-- A fetch collaborator returning a one-byte PNG body with an `image/png`
content type for every request. -/
def fetchPng : Fetch := fun _ => some ([137], some "image/png")

/-- The image element of the C4 scenario: `<image src="http://x/y.png"/>`. -/
def imgNodeC4 : Node := Node.element "image" [("src", "http://x/y.png")] []

/-- The C2 scenario input: a document with a paragraph and a web snippet
holding one HTML file and one CSS file. -/
def xmlC2 : String :=
  "<document><paragraph>intro</paragraph><web-snippet><web-snippet-file language=\"html\">&lt;b&gt;Hi&lt;/b&gt;</web-snippet-file><web-snippet-file language=\"css\">b\x7bcolor:red\x7d</web-snippet-file></web-snippet></document>"

/-- The C2 counterexample input: a document with a paragraph and a web snippet
whose bundle holds one recognized HTML file whose content is empty. -/
def xmlC2e : String :=
  "<document><paragraph>intro</paragraph><web-snippet><web-snippet-file language=\"html\"></web-snippet-file></web-snippet></document>"

/-- The wrapper tags of the `_convert_lists` output stream. -/
def wrapItemsOf (l : List (Sum Char WrapItem)) : List WrapItem :=
  l.filterMap fun s =>
    match s with
    | Sum.inr w => some w
    | Sum.inl _ => none

/-- Proper closure of emitted list wrappers: every opened wrapper is closed by
its own closer in nesting order; a closer arriving with an empty stack (the
unmatched-`</list>` case) is tolerated; at the end the stack is empty. -/
def wellClosed : List WrapItem → List String → Bool
  | [], [] => true
  | [], _ :: _ => false
  | .openW t :: w, st => wellClosed w (t :: st)
  | .closeW _ :: w, [] => wellClosed w []
  | .closeW t :: w, s :: st => t == s && wellClosed w st

/-- The per-line heading shift in the words of the (amended) C7 claim: a line
whose un-indented prefix is one to six `#` followed by in-line whitespace and
then some text has its hash count set to `min(count + offset, 6)` and the
whitespace run normalised to one space; every other line is unchanged. -/
def lineShiftSpec (offset : Int) (l : String) : String :=
  let cs := l.data
  let k := (cs.takeWhile (· == '#')).length
  if 1 ≤ k ∧ k ≤ 6 ∧ ¬((cs.drop k).takeWhile pyIsSpace).isEmpty then
    String.mk (List.replicate (min ((k : Int) + offset) 6).toNat '#' ++
      ' ' :: (cs.drop k).dropWhile pyIsSpace)
  else l

/-- A line is free of newline characters (it came from a a split). -/
def noNl (l : String) : Prop := '\n' ∉ l.data

/-- The C7 side condition: a line opening with one to six hashes and
whitespace has a non-whitespace character after the whitespace run, so the
heading match cannot swallow the line separator. -/
def headingLineOk (l : String) : Prop :=
  let cs := l.data
  let k := (cs.takeWhile (· == '#')).length
  1 ≤ k → k ≤ 6 → (cs.drop k).dropWhile pyIsSpace ≠ []

instance decNoNl (l : String) : Decidable (noNl l) :=
  inferInstanceAs (Decidable ('\n' ∉ l.data))

instance decHeadingLineOk (l : String) : Decidable (headingLineOk l) :=
  inferInstanceAs (Decidable (1 ≤ (l.data.takeWhile (· == '#')).length →
    (l.data.takeWhile (· == '#')).length ≤ 6 →
    (l.data.drop (l.data.takeWhile (· == '#')).length).dropWhile pyIsSpace ≠ []))

/-- The cleanliness condition of the amended C3 claim: the string is already
stripped and contains none of the characters the post-processing passes react
to (carriage returns, backslashes, image openers `!`, bracket spans `[`,
list markers `-`, comment/tag openers `<`). -/
def cleanMd (m : String) : Prop :=
  pyStrip m = m ∧ '\r' ∉ m.data ∧ '\\' ∉ m.data ∧ '!' ∉ m.data ∧
    '[' ∉ m.data ∧ '-' ∉ m.data ∧ '<' ∉ m.data

/-- Joining char-list lines with newlines (the char-level view of
`"\n".join`). -/
def joinCharLines : List (List Char) → List Char
  | [] => []
  | l :: ls => l ++ ls.flatMap fun l2 => '\n' :: l2

/-- The children of a node. -/
def nodeChildren : Node → List Node
  | .text _ => []
  | .element _ _ ch => ch

/-- The children of an element. -/
def xmlChildren : XElem → List XElem
  | .mk _ _ _ ch _ => ch

/- ===== Theorems ===== -/

set_option maxRecDepth 40000

/-- Dropping a whitespace run twice is the same as dropping it once. -/
theorem dropWhile_dropWhile (p : Char → Bool) (l : List Char) :
    (l.dropWhile p).dropWhile p = l.dropWhile p := by
  induction l with
  | nil => rfl
  | cons c t ih =>
    by_cases h : p c
    · simp [List.dropWhile_cons, h, ih]
    · simp [List.dropWhile_cons, h]

/-- `dropWhile` is the identity on any prefix of one of its fixed points. -/
theorem dropWhile_eq_self_of_prefix {p : Char → Bool} {X Y : List Char}
    (hx : X.dropWhile p = X) (hpre : Y <+: X) : Y.dropWhile p = Y := by
  cases Y with
  | nil => rfl
  | cons y t =>
    cases X with
    | nil => simp at hpre
    | cons x s =>
      obtain ⟨r, hr⟩ := hpre
      have hyx : y = x := by
        have := congrArg (List.head? ·) hr
        simpa using this
      subst hyx
      by_cases h : p y
      · exfalso
        have := hx
        simp [List.dropWhile_cons, h] at this
        have hlen := congrArg List.length this
        have := (List.dropWhile_sublist (l := s) p).length_le
        simp at hlen
        omega
      · simp [List.dropWhile_cons, h]

/-- `stripList` in terms of `rdropWhile`. -/
theorem stripList_eq_rdropWhile (cs : List Char) :
    stripList cs = List.rdropWhile pyIsSpace (cs.dropWhile pyIsSpace) := rfl

/-- Stripping is idempotent on char lists. -/
theorem stripList_idem (cs : List Char) :
    stripList (stripList cs) = stripList cs := by
  have key : ∀ X : List Char, X.dropWhile pyIsSpace = X →
      List.rdropWhile pyIsSpace ((List.rdropWhile pyIsSpace X).dropWhile pyIsSpace) =
        List.rdropWhile pyIsSpace X := by
    intro X hX
    have h1 : (List.rdropWhile pyIsSpace X).dropWhile pyIsSpace =
        List.rdropWhile pyIsSpace X :=
      dropWhile_eq_self_of_prefix hX (List.rdropWhile_prefix _ _)
    rw [h1]
    unfold List.rdropWhile
    simp [dropWhile_dropWhile]
  simp only [stripList_eq_rdropWhile]
  exact key _ (dropWhile_dropWhile _ _)

/-- Python `strip` is idempotent. -/
theorem pyStrip_idem (s : String) : pyStrip (pyStrip s) = pyStrip s := by
  unfold pyStrip
  simp [stripList_idem]

/-- C9: for every input string, the post-processor's output has no leading or
trailing whitespace (it is a fixed point of `strip`), and a whitespace-only
input yields the empty string. -/
theorem post_process_output_stripped (md : String) :
    pyStrip (_post_process_markdown md) = _post_process_markdown md ∧
    (pyStrip md = "" → _post_process_markdown md = "") := by
  constructor
  · unfold _post_process_markdown
    by_cases h : pyStrip md = ""
    · simp [h]
      decide
    · simp [h, pyStrip_idem]
  · intro h
    simp [_post_process_markdown, h]

/-- C9 witness: a whitespace-only input is post-processed to the empty string. -/
theorem post_process_output_stripped_witness :
    _post_process_markdown " \n " = "" :=
  (post_process_output_stripped " \n ").2 (by decide)

/-- C10: when the rendered canonical markup is empty or whitespace-only, the
full conversion returns the empty string for every conversion boundary — the
boundary is never consulted. -/
theorem ast_to_markdown_blank_short_circuit (fetch : Fetch) (node : Node)
    (h : pyStrip (ast_to_html fetch node) = "") :
    ∀ convert : String → String, ast_to_markdown convert fetch node = "" := by
  intro convert
  simp [ast_to_markdown, h]

/-- C10 witness: a whitespace-only text node converts to the empty string even
under an uppercasing boundary. -/
theorem ast_to_markdown_blank_short_circuit_witness :
    ast_to_markdown pyUpper fetchNone (Node.text "  ") = "" :=
  ast_to_markdown_blank_short_circuit fetchNone (Node.text "  ") (by decide) pyUpper

/-- C1 counterexample: on `"<a>"` both the strict parse and the
document-wrapped re-parse fail, and `parse_edxml_to_ast` does not return a
node — the exception of the unguarded second parse escapes. -/
theorem parse_edxml_double_failure_raises :
    exceptOk (parse_edxml_to_ast "<a>") = false := by decide

/-- C1 (amended): the empty input yields an empty `document` node, and for
nonempty input the parser returns a node exactly when the strict parse or the
document-wrapped re-parse succeeds; when both fail, the parse error
propagates (as on `"<a>"`), and a bare fragment such as `"hello"` is recovered
by the wrap. -/
theorem parse_edxml_fallback_behaviour :
    parse_edxml_to_ast "" = .ok (Node.element "document" [] []) ∧
    (∀ xml : String, xml ≠ "" →
      (exceptOk (parse_edxml_to_ast xml) = true ↔
        (fromstring xml).isSome = true ∨
        (fromstring ("<document>" ++ xml ++ "</document>")).isSome = true)) ∧
    exceptOk (parse_edxml_to_ast "hello") = true ∧
    exceptOk (parse_edxml_to_ast "<a>") = false := by
  refine ⟨rfl, ?_, by decide, by decide⟩
  intro xml hx
  unfold parse_edxml_to_ast
  rw [if_neg hx]
  cases h1 : fromstring xml with
  | some root => simp [exceptOk]
  | none =>
    cases h2 : fromstring ("<document>" ++ xml ++ "</document>") with
    | some root => simp [exceptOk]
    | none => simp [exceptOk]

/-- C1 witness: the characterisation applied to the recovered fragment
`"hello"`. -/
theorem parse_edxml_fallback_behaviour_witness :
    exceptOk (parse_edxml_to_ast "hello") = true ↔
      (fromstring "hello").isSome = true ∨
      (fromstring ("<document>" ++ "hello" ++ "</document>")).isSome = true :=
  parse_edxml_fallback_behaviour.2.1 "hello" (by decide)

/-- C4 counterexample: rendering `<image src="http://x/y.png"/>` with the AST
renderer does not leave the URL unchanged and does depend on the fetch
collaborator — a network fetch is performed and its result embedded. -/
theorem render_image_always_fetches :
    _render_node fetchPng imgNodeC4 ≠ "<img src=\"http://x/y.png\" alt=\"\" />" ∧
    _render_node fetchPng imgNodeC4 ≠ _render_node fetchNone imgNodeC4 := by
  constructor
  · decide
  · decide

/-- C4 (amended): the `url` image mode exists only in
`EdClient.make_image_resolver`, where it returns the source unchanged for
every fetch collaborator (no fetch performed); the AST renderer, by contrast,
always consults the fetch and embeds a base64 data URI on success, passing the
original URL through only when the fetch raises. -/
theorem image_url_mode_passthrough :
    (∀ (fetch : Fetch) (src : String), src ≠ "" →
      make_image_resolver "url" fetch src = src) ∧
    (∀ (f g : Fetch) (src : String),
      make_image_resolver "url" f src = make_image_resolver "url" g src) ∧
    (∀ (fetch : Fetch) (src : String), fetch src = none →
      _download_image_as_data_uri fetch src = src) ∧
    _render_node fetchNone imgNodeC4 = "<img src=\"http://x/y.png\" alt=\"\" />" ∧
    _render_node fetchPng imgNodeC4 =
      "<img src=\"data:image/png;base64,iQ==\" alt=\"\" />" := by
  refine ⟨?_, ?_, ?_, by decide, by decide⟩
  · intro fetch src h
    have hm : pyLower "url" = "url" := by decide
    simp [make_image_resolver, hm, h]
  · intro f g src
    have hm : pyLower "url" = "url" := by decide
    by_cases h : src = "" <;> simp [make_image_resolver, hm, h]
  · intro fetch src h
    simp [_download_image_as_data_uri, h]

/-- C4 witness: the `url` resolver leaves the concrete URL unchanged, and the
renderer's exception path passes the URL through. -/
theorem image_url_mode_passthrough_witness :
    make_image_resolver "url" fetchNone "http://x/y.png" = "http://x/y.png" ∧
    _download_image_as_data_uri fetchNone "http://x/y.png" = "http://x/y.png" :=
  ⟨image_url_mode_passthrough.1 fetchNone "http://x/y.png" (by decide),
   image_url_mode_passthrough.2.2.1 fetchNone "http://x/y.png" rfl⟩

/-- C6: the heading level is the `level` attribute parsed as a Python int and
clamped to `[1, 6]`; a parse failure defaults to 1; `<heading level="9">X</heading>`
renders as `<h6>X</h6>` and a non-numeric level as `<h1>X</h1>`. -/
theorem heading_level_clamp :
    (∀ s : String, 1 ≤ headingLevelOf s ∧ headingLevelOf s ≤ 6) ∧
    (∀ (s : String) (n : Int), pyInt s = some n →
      headingLevelOf s = (max 1 (min 6 n)).toNat) ∧
    (∀ s : String, pyInt s = none → headingLevelOf s = 1) ∧
    (∀ fetch : Fetch, (parse_edxml_to_ast "<heading level=\"9\">X</heading>").map
      (_render_node fetch) = .ok "<h6>X</h6>") ∧
    (∀ fetch : Fetch, (parse_edxml_to_ast "<heading level=\"abc\">X</heading>").map
      (_render_node fetch) = .ok "<h1>X</h1>") := by
  refine ⟨?_, ?_, ?_, fun _ => rfl, fun _ => rfl⟩
  · intro s
    cases h : pyInt s with
    | none => simp [headingLevelOf, h]
    | some n =>
      simp only [headingLevelOf, h]
      omega
  · intro s n h
    simp [headingLevelOf, h]
  · intro s h
    simp [headingLevelOf, h]

/-- C6 witness: the clamp formula at the concrete levels `"9"` and `"abc"`. -/
theorem heading_level_clamp_witness :
    headingLevelOf "9" = (max 1 (min 6 (9 : Int))).toNat ∧
    headingLevelOf "abc" = 1 :=
  ⟨heading_level_clamp.2.1 "9" 9 (by decide),
   heading_level_clamp.2.2.1 "abc" (by decide)⟩

set_option maxHeartbeats 2000000 in
/-- C2 counterexample: a web snippet whose bundle holds one recognized HTML
file with empty content is dropped entirely by `_web_snippet_repl`: no
placeholder is registered, the markup handed to the conversion boundary holds
neither an opaque token nor the snippet, and nothing is substituted back into
the final output. -/
theorem web_snippet_empty_file_dropped :
    (edxmlStage1 fetchNone xmlC2e).webBlocks = [] ∧
    (edxmlStage1 fetchNone xmlC2e).htmlLike = "<p>intro</p>" ∧
    containsSub (edxmlStage1 fetchNone xmlC2e).htmlLike "EDRAWHTMLBLOCK" = false ∧
    edxml_to_markdown pyUpper fetchNone xmlC2e = "<P>INTRO</P>" := by
  refine ⟨by decide, by decide, by decide, by decide⟩

set_option maxHeartbeats 2000000 in
/-- C2 (amended): for the web snippet with one HTML and one CSS file, the
fragment is registered in the placeholder table under the opaque token
`EDRAWHTMLBLOCK_0`, the canonical markup handed to the conversion boundary
carries only that placeholder (not the fragment), and the full pipeline run
with an uppercasing boundary still contains the original-case HTML and CSS in
its final output, while the unprotected text was uppercased. -/
theorem web_snippet_placeholder_roundtrip :
    (edxmlStage1 fetchNone xmlC2).webBlocks.map Prod.fst = ["EDRAWHTMLBLOCK_0"] ∧
    (edxmlStage1 fetchNone xmlC2).htmlLike = "<p>intro</p>EDRAWHTMLBLOCK_0" ∧
    containsSub (edxmlStage1 fetchNone xmlC2).htmlLike "<b>Hi</b>" = false ∧
    containsSub (edxml_to_markdown pyUpper fetchNone xmlC2) "<b>Hi</b>" = true ∧
    containsSub (edxml_to_markdown pyUpper fetchNone xmlC2) "b\x7bcolor:red\x7d" = true ∧
    containsSub (edxml_to_markdown pyUpper fetchNone xmlC2) "INTRO" = true := by
  refine ⟨by decide, by decide, by decide, by decide, by decide, by decide⟩

/-- Every wrapper stack is cleanly unwound by its own closers. -/
theorem wellClosed_closers : ∀ st : List String,
    wellClosed (st.map WrapItem.closeW) st = true := by
  intro st
  induction st with
  | nil => rfl
  | cons s st ih => simp [wellClosed, ih]

/-- The stack fold of `_convert_lists` emits well-closed wrappers from any
token stream and any starting stack. -/
theorem listFold_wellClosed : ∀ (segs : List (Sum Char ListTok)) (st : List String),
    wellClosed (wrapItemsOf (listFoldAux segs st)) st = true := by
  intro segs
  induction segs with
  | nil =>
    intro st
    have hmap : wrapItemsOf (st.map fun t => Sum.inr (WrapItem.closeW t)) =
        st.map WrapItem.closeW := by
      induction st with
      | nil => rfl
      | cons t ts ih => simpa [wrapItemsOf] using ih
    simp only [listFoldAux]
    rw [hmap]
    exact wellClosed_closers st
  | cons seg rest ih =>
    intro st
    cases seg with
    | inl c => simpa [listFoldAux, wrapItemsOf] using ih st
    | inr tok =>
      cases tok with
      | openTok body =>
        simpa [listFoldAux, wrapItemsOf, wellClosed] using ih (listTypeOf body :: st)
      | closeTok =>
        cases st with
        | nil => simpa [listFoldAux, wrapItemsOf, wellClosed] using ih []
        | cons t st2 => simpa [listFoldAux, wrapItemsOf, wellClosed] using ih st2

/-- C8: the list-tag converter always emits well-closed `<ol>`/`<ul>` wrappers
(every wrapper it opens is closed in nesting order, leftover openers are
closed at end of input, innermost first), and an unmatched `</list>` is
emitted as `</ul>`. -/
theorem convert_lists_balanced :
    (∀ s : String, wellClosed (emittedWrappers s) [] = true) ∧
    _convert_lists "</list>" = "</ul>" ∧
    _convert_lists "<list style=\"number\"><list>" = "<ol><ul></ul></ol>" := by
  refine ⟨?_, by decide, by decide⟩
  intro s
  exact listFold_wellClosed _ []

/-- The child loop of `_elem_to_node` distributes over append. -/
theorem elemChildrenNodes_append (l1 l2 : List XElem) :
    elemChildrenNodes (l1 ++ l2) = elemChildrenNodes l1 ++ elemChildrenNodes l2 := by
  induction l1 with
  | nil => rfl
  | cons c cs ih => simp [elemChildrenNodes, ih]

/-- C5: parsing `<paragraph>a<bold>b</bold>c</paragraph>` yields the children
`a`, bold `b`, `c` in document order and renders as
`<p>a<strong>b</strong>c</p>`; in general `_elem_to_node` ignores an element's
own tail (tail text is not attached to the preceding element) and appends each
child's nonempty tail as a text node directly after that child in the
parent's children. -/
theorem parser_preserves_tail_order :
    (parse_edxml_to_ast "<paragraph>a<bold>b</bold>c</paragraph>" =
      .ok (Node.element "paragraph" [] [Node.text "a",
        Node.element "bold" [] [Node.text "b"], Node.text "c"])) ∧
    (∀ fetch : Fetch, _render_node fetch (Node.element "paragraph" []
      [Node.text "a", Node.element "bold" [] [Node.text "b"], Node.text "c"]) =
      "<p>a<strong>b</strong>c</p>") ∧
    (∀ (tg : String) (a : List (String × String)) (x : String)
      (ch : List XElem) (tl tl' : String),
      _elem_to_node (.mk tg a x ch tl) = _elem_to_node (.mk tg a x ch tl')) ∧
    (∀ (e : XElem) (pre : List XElem) (c : XElem) (post : List XElem),
      xmlChildren e = pre ++ c :: post → xmlTail c ≠ "" →
      ∃ s t, nodeChildren (_elem_to_node e) =
        s ++ _elem_to_node c :: Node.text (xmlTail c) :: t) := by
  refine ⟨rfl, fun _ => rfl, fun _ _ _ _ _ _ => rfl, ?_⟩
  intro e pre c post hch htl
  cases e with
  | mk tg a x ch tl =>
    simp only [xmlChildren] at hch
    subst hch
    refine ⟨(if x ≠ "" then [Node.text x] else []) ++ elemChildrenNodes pre,
      elemChildrenNodes post, ?_⟩
    simp only [_elem_to_node, nodeChildren, elemChildrenNodes_append,
      elemChildrenNodes, htl]
    simp [htl]

/-- C5 witness: the tail-adjacency property at the parsed
`<paragraph>a<bold>b</bold>c</paragraph>` element. -/
theorem parser_preserves_tail_order_witness :
    ∃ s t, nodeChildren (_elem_to_node
        (.mk "paragraph" [] "a" [.mk "bold" [] "b" [] "c"] "")) =
      s ++ _elem_to_node (XElem.mk "bold" [] "b" [] "c") ::
        Node.text (xmlTail (XElem.mk "bold" [] "b" [] "c")) :: t :=
  parser_preserves_tail_order.2.2.2
    (.mk "paragraph" [] "a" [.mk "bold" [] "b" [] "c"] "")
    [] (.mk "bold" [] "b" [] "c") [] rfl (by decide)

/- ===== C3: post-processor idempotence ===== -/

/-- The image substitution scanner is the identity on strings without `!`. -/
theorem imgMdSubAux_id : ∀ (fuel : Nat) (cs : List Char), '!' ∉ cs →
    imgMdSubAux fuel cs = cs := by
  intro fuel
  induction fuel with
  | zero => intro cs _; rfl
  | succ fuel ih =>
    intro cs h
    cases cs with
    | nil => rfl
    | cons c rest =>
      have hc : ¬ c = '!' := fun hx => h (hx ▸ List.mem_cons_self c rest)
      have hr : '!' ∉ rest := fun hx => h (List.mem_cons_of_mem c hx)
      simp [imgMdSubAux, hc, ih rest hr]

/-- The underline substitution scanner is the identity on strings without `[`. -/
theorem underlineSubAux_id : ∀ (fuel : Nat) (cs : List Char), '[' ∉ cs →
    underlineSubAux fuel cs = cs := by
  intro fuel
  induction fuel with
  | zero => intro cs _; rfl
  | succ fuel ih =>
    intro cs h
    cases cs with
    | nil => rfl
    | cons c rest =>
      have hc : ¬ c = '[' := fun hx => h (hx ▸ List.mem_cons_self c rest)
      have hr : '[' ∉ rest := fun hx => h (List.mem_cons_of_mem c hx)
      simp [underlineSubAux, hc, ih rest hr]

/-- Membership transfer out of `stripList`. -/
theorem mem_of_mem_stripList {x : Char} {cs : List Char}
    (h : x ∈ stripList cs) : x ∈ cs := by
  unfold stripList at h
  rw [List.mem_reverse] at h
  have h1 := (List.dropWhile_sublist (l := (cs.dropWhile pyIsSpace).reverse) pyIsSpace).subset h
  rw [List.mem_reverse] at h1
  exact (List.dropWhile_sublist (l := cs) pyIsSpace).subset h1

/-- Membership transfer out of `rstripList`. -/
theorem mem_of_mem_rstripList {x : Char} {cs : List Char}
    (h : x ∈ rstripList cs) : x ∈ cs := by
  unfold rstripList at h
  rw [List.mem_reverse] at h
  have h1 := (List.dropWhile_sublist (l := cs.reverse) pyIsSpace).subset h
  rwa [List.mem_reverse] at h1

/-- The numbered-list fix matches only lines containing a dash. -/
theorem listFixNumMatch_none {cs : List Char} (h : '-' ∉ cs) :
    listFixNumMatch cs = none := by
  unfold listFixNumMatch
  by_cases h1 : (List.takeWhile Char.isDigit (cs.dropWhile pyIsSpace)).isEmpty
  · simp [h1]
  · simp only [h1, Bool.false_eq_true, if_false]
    cases h2 : (cs.dropWhile pyIsSpace).dropWhile Char.isDigit with
    | nil => simp
    | cons d l3 =>
      by_cases hd : d = '.'
      · subst hd
        by_cases h3 : (l3.takeWhile pyIsSpace).isEmpty
        · simp [h3]
        · simp only [h3, Bool.false_eq_true, if_false]
          cases h4 : l3.dropWhile pyIsSpace with
          | nil => simp
          | cons e l5 =>
            by_cases he : e = '-'
            · exfalso
              apply h
              have m1 : '-' ∈ l3.dropWhile pyIsSpace := by
                rw [h4, he]
                exact List.mem_cons_self _ _
              have m2 : '-' ∈ l3 := (List.dropWhile_sublist _).subset m1
              have m3 : '-' ∈ (cs.dropWhile pyIsSpace).dropWhile Char.isDigit := by
                rw [h2]
                exact List.mem_cons_of_mem _ m2
              have m4 : '-' ∈ cs.dropWhile pyIsSpace :=
                (List.dropWhile_sublist _).subset m3
              exact (List.dropWhile_sublist _).subset m4
            · simp [he]
      · simp [hd]

/-- The bulleted-list fix matches only lines containing a dash. -/
theorem listFixDashMatch_none {cs : List Char} (h : '-' ∉ cs) :
    listFixDashMatch cs = none := by
  unfold listFixDashMatch
  cases h2 : cs.dropWhile pyIsSpace with
  | nil => simp
  | cons d l2 =>
    by_cases hd : d = '-'
    · exfalso
      apply h
      have m1 : '-' ∈ cs.dropWhile pyIsSpace := by
        rw [h2, hd]
        exact List.mem_cons_self _ _
      exact (List.dropWhile_sublist _).subset m1
    · simp [hd]

/-- The backslash-before-bold scanner is the identity without backslashes. -/
theorem stripBoldBackAux_id : ∀ cs : List Char, '\\' ∉ cs →
    stripBoldBackAux cs = cs := by
  intro cs
  induction cs with
  | nil => intro _; rfl
  | cons c rest ih =>
    intro h
    have hc : ¬ c = '\\' := fun hx => h (hx ▸ List.mem_cons_self c rest)
    have hr : '\\' ∉ rest := fun hx => h (List.mem_cons_of_mem c hx)
    simp [stripBoldBackAux, hc, ih hr]

/-- The math-trigger scanner is the identity without backslashes. -/
theorem removeBackBeforeAux_id (t : Char) : ∀ cs : List Char, '\\' ∉ cs →
    removeBackBeforeAux t cs = cs := by
  intro cs
  induction cs with
  | nil => intro _; rfl
  | cons c rest ih =>
    intro h
    have hc : ¬ c = '\\' := fun hx => h (hx ▸ List.mem_cons_self c rest)
    have hr : '\\' ∉ rest := fun hx => h (List.mem_cons_of_mem c hx)
    simp [removeBackBeforeAux, hc, ih hr]

/-- The line cleanup loop keeps every line free of `\`, `-` and `<` unchanged. -/
theorem cleanLines_id : ∀ (lines : List String) (inCode : Bool),
    (∀ l ∈ lines, '\\' ∉ l.data ∧ '-' ∉ l.data ∧ '<' ∉ l.data) →
    cleanLines inCode lines = lines := by
  intro lines
  induction lines with
  | nil => intro _ _; rfl
  | cons l ls ih =>
    intro inCode h
    obtain ⟨hbs, hdash, hlt⟩ := h l (List.mem_cons_self _ _)
    have hrest : ∀ l2 ∈ ls, '\\' ∉ l2.data ∧ '-' ∉ l2.data ∧ '<' ∉ l2.data :=
      fun l2 hm => h l2 (List.mem_cons_of_mem _ hm)
    by_cases hf : "```".data.isPrefixOf (pyStrip l).data
    · simp [cleanLines, hf, ih _ hrest]
    · by_cases hic : inCode
      · simp [cleanLines, hf, hic, ih _ hrest]
      · have hcm : ¬ pyStrip l = "<!-- -->" := by
          intro hx
          apply hlt
          have : '<' ∈ (pyStrip l).data := by rw [hx]; decide
          exact mem_of_mem_stripList this
        have h1 : listFixNum l = l := by
          unfold listFixNum
          rw [listFixNumMatch_none hdash]
        have h2 : listFixDash l = l := by
          unfold listFixDash
          rw [listFixDashMatch_none hdash]
        have h3 : stripBoldBack l = l := by
          unfold stripBoldBack
          rw [stripBoldBackAux_id _ hbs]
        have h4 : ¬ (rstripList l.data).getLast? = some '\\' := by
          intro hx
          exact hbs (mem_of_mem_rstripList (List.mem_of_mem_getLast? hx))
        have h5 : mathTriggers l = l := by
          unfold mathTriggers
          rw [removeBackBeforeAux_id _ _ hbs, removeBackBeforeAux_id _ _ hbs]
        simp only [cleanLines, hf, Bool.false_eq_true, if_false, hic, hcm, h1,
          h2, h3, h4, h5, if_neg hic]
        simp [hcm, h4, h5, ih _ hrest]

/-- `joinCharLines` on a cons cell. -/
theorem joinCharLines_cons (l : List Char) (ls : List (List Char)) :
    joinCharLines (l :: ls) =
      l ++ (if ls.isEmpty then [] else '\n' :: joinCharLines ls) := by
  cases ls with
  | nil => simp [joinCharLines]
  | cons l2 ls2 => simp [joinCharLines]

/-- `String.intercalate "\n"` through char lists. -/
theorem intercalate_nl_eq (ls : List String) :
    String.intercalate "\n" ls = String.mk (joinCharLines (ls.map String.data)) := by
  cases ls with
  | nil => rfl
  | cons a as =>
    have go_eq : ∀ (as : List String) (acc : String),
        String.intercalate.go acc "\n" as =
          String.mk (acc.data ++ as.flatMap fun l => '\n' :: l.data) := by
      intro as
      induction as with
      | nil =>
        intro acc
        show acc = String.mk (acc.data ++ [])
        cases acc
        simp
      | cons b bs ih =>
        intro acc
        show String.intercalate.go (acc ++ "\n" ++ b) "\n" bs = _
        rw [ih]
        cases acc
        simp [joinCharLines]
    show String.intercalate.go a "\n" as = _
    rw [go_eq]
    cases a
    simp [joinCharLines, List.flatMap_map]

/-- Line characters come from the split input (carriage-return-free case). -/
theorem splitLinesAux_mem : ∀ (fuel : Nat) (cs acc : List Char),
    '\r' ∉ cs → ∀ l ∈ splitLinesAux fuel cs acc, ∀ x ∈ l, x ∈ acc ∨ x ∈ cs := by
  intro fuel
  induction fuel with
  | zero =>
    intro cs acc _ l hl x hx
    simp only [splitLinesAux, List.mem_singleton] at hl
    subst hl
    rcases List.mem_append.1 hx with h | h
    · exact Or.inl (List.mem_reverse.1 h)
    · exact Or.inr h
  | succ fuel ih =>
    intro cs acc hnr l hl x hx
    cases cs with
    | nil =>
      simp only [splitLinesAux, List.mem_singleton] at hl
      subst hl
      exact Or.inl (List.mem_reverse.1 hx)
    | cons c rest =>
      have hcr : ¬ c = '\r' := fun hx2 => hnr (hx2 ▸ List.mem_cons_self c rest)
      have hnr2 : '\r' ∉ rest := fun hx2 => hnr (List.mem_cons_of_mem c hx2)
      by_cases hcn : c = '\n'
      · subst hcn
        simp only [splitLinesAux, hcr, if_false, if_true, if_pos rfl] at hl
        by_cases hre : rest.isEmpty
        · rw [if_pos hre] at hl
          simp only [List.mem_singleton] at hl
          subst hl
          exact Or.inl (List.mem_reverse.1 hx)
        · rw [if_neg hre] at hl
          rcases List.mem_cons.1 hl with h | h
          · subst h
            exact Or.inl (List.mem_reverse.1 hx)
          · rcases ih rest [] hnr2 l h x hx with h2 | h2
            · simp at h2
            · exact Or.inr (List.mem_cons_of_mem _ h2)
      · simp only [splitLinesAux, hcr, hcn, if_false] at hl
        rcases ih rest (c :: acc) hnr2 l hl x hx with h2 | h2
        · rcases List.mem_cons.1 h2 with h3 | h3
          · subst h3
            exact Or.inr (List.mem_cons_self _ _)
          · exact Or.inl h3
        · exact Or.inr (List.mem_cons_of_mem _ h2)

/-- Rejoining a split recovers the input when it has no carriage return and
does not end in a newline. -/
theorem splitLinesAux_join : ∀ (fuel : Nat) (cs acc : List Char),
    cs.length ≤ fuel → '\r' ∉ cs → cs.getLast? ≠ some '\n' →
    joinCharLines (splitLinesAux fuel cs acc) = acc.reverse ++ cs := by
  intro fuel
  induction fuel with
  | zero =>
    intro cs acc hlen _ _
    have : cs = [] := List.length_eq_zero.1 (Nat.le_zero.1 hlen)
    subst this
    simp [splitLinesAux, joinCharLines]
  | succ fuel ih =>
    intro cs acc hlen hnr hlast
    cases cs with
    | nil => simp [splitLinesAux, joinCharLines]
    | cons c rest =>
      have hcr : ¬ c = '\r' := fun hx => hnr (hx ▸ List.mem_cons_self c rest)
      have hnr2 : '\r' ∉ rest := fun hx => hnr (List.mem_cons_of_mem c hx)
      by_cases hcn : c = '\n'
      · subst hcn
        cases rest with
        | nil => simp at hlast
        | cons r rs =>
          have hres : ¬ ((r :: rs).isEmpty = true) := by simp
          show joinCharLines (if ('\n' : Char) = '\r' then _ else _) = _
          rw [if_neg hcr, if_pos rfl, if_neg hres]
          have hjx := ih (r :: rs) [] (by simpa using hlen) hnr2
            (by simpa using hlast)
          simp only [List.reverse_nil, List.nil_append] at hjx
          have hXne : ¬ ((splitLinesAux fuel (r :: rs) []).isEmpty = true) := by
            intro hx
            rw [List.isEmpty_iff] at hx
            rw [hx] at hjx
            simp [joinCharLines] at hjx
          rw [joinCharLines_cons, if_neg hXne, hjx]
      · show joinCharLines (if c = '\r' then _ else _) = _
        rw [if_neg hcr, if_neg hcn]
        rw [ih rest (c :: acc) (by simpa using hlen) hnr2 ?hl]
        · simp
        case hl =>
          cases rest with
          | nil => simp
          | cons r rs => simpa using hlast

/-- A strip fixed point does not end in a newline. -/
theorem strip_fixpoint_getLast {cs : List Char} (hfix : stripList cs = cs) :
    cs.getLast? ≠ some '\n' := by
  intro hlast
  have hne : cs ≠ [] := by
    intro hx
    rw [hx] at hlast
    simp at hlast
  have he : List.rdropWhile pyIsSpace (cs.dropWhile pyIsSpace) = cs := by
    rw [← stripList_eq_rdropWhile]
    exact hfix
  have hl : List.rdropWhile pyIsSpace (cs.dropWhile pyIsSpace) ≠ [] := by
    rw [he]
    exact hne
  have h2 := List.rdropWhile_last_not (p := pyIsSpace)
    (l := cs.dropWhile pyIsSpace) hl
  have h3 : (List.rdropWhile pyIsSpace (cs.dropWhile pyIsSpace)).getLast? =
      some '\n' := by rw [he]; exact hlast
  rw [List.getLast?_eq_getLast _ hl] at h3
  have h4 := Option.some.inj h3
  rw [h4] at h2
  exact h2 (by decide)

/-- C3 key lemma: the post-processor is the identity on clean strings. -/
theorem post_process_id {m : String} (h : cleanMd m) :
    _post_process_markdown m = m := by
  obtain ⟨hstrip, hr, hbs, hbang, hbracket, hdash, hlt⟩ := h
  by_cases h0 : pyStrip m = ""
  · have hm : m = "" := by rw [← hstrip, h0]
    subst hm
    decide
  · have h1 : imgMdSub m = m := by
      show String.mk (imgMdSubAux m.data.length m.data) = m
      rw [imgMdSubAux_id _ _ hbang]
    have h2 : underlineSub m = m := by
      show String.mk (underlineSubAux m.data.length m.data) = m
      rw [underlineSubAux_id _ _ hbracket]
    have hdataFix : stripList m.data = m.data := congrArg String.data hstrip
    have hmne : m.data ≠ [] := by
      intro hx
      apply h0
      have hme : m = "" := by
        cases m
        simp_all
      rw [hme]
      decide
    have hsplit : pySplitLines m = (splitLinesAux m.data.length m.data []).map String.mk := by
      unfold pySplitLines
      rw [if_neg (by simpa [List.isEmpty_iff] using hmne)]
    have hlineschars : ∀ l ∈ pySplitLines m,
        '\\' ∉ l.data ∧ '-' ∉ l.data ∧ '<' ∉ l.data := by
      intro l hl
      rw [hsplit] at hl
      obtain ⟨lc, hlc, hmk⟩ := List.mem_map.1 hl
      subst hmk
      have hmem : ∀ x ∈ lc, x ∈ m.data := by
        intro x hx
        rcases splitLinesAux_mem m.data.length m.data [] hr lc hlc x hx with h | h
        · simp at h
        · exact h
      exact ⟨fun hx => hbs (hmem _ hx), fun hx => hdash (hmem _ hx),
        fun hx => hlt (hmem _ hx)⟩
    have hclean : cleanLines false (pySplitLines m) = pySplitLines m :=
      cleanLines_id _ _ hlineschars
    have hjoin : String.intercalate "\n" (pySplitLines m) = m := by
      rw [intercalate_nl_eq, hsplit]
      have hmaps : ((splitLinesAux m.data.length m.data []).map String.mk).map
          String.data = splitLinesAux m.data.length m.data [] := by
        rw [List.map_map]
        exact List.map_id _
      rw [hmaps]
      rw [splitLinesAux_join m.data.length m.data [] (le_refl _) hr
        (strip_fixpoint_getLast hdataFix)]
      rfl
    show (if pyStrip m = "" then pyStrip m else
      pyStrip (String.intercalate "\n"
        (cleanLines false (pySplitLines (underlineSub (imgMdSub m)))))) = m
    rw [if_neg h0, h1, h2, hclean, hjoin, hstrip]

/-- C3 counterexample: the post-processor is not idempotent — a line ending in
two backslashes loses one backslash per pass. -/
theorem post_process_not_idempotent :
    _post_process_markdown (_post_process_markdown "a\\\\") ≠
      _post_process_markdown "a\\\\" := by decide

/-- C3 (amended): the post-processor is idempotent on strings that are already
stripped and free of the characters its passes react to (carriage returns,
backslashes, `!`, `[`, `-`, `<`); in general a second pass can strip further
backslashes, as on a line ending in two backslashes. -/
theorem post_process_idempotent_on_clean (m : String) (h : cleanMd m) :
    _post_process_markdown (_post_process_markdown m) = _post_process_markdown m := by
  rw [post_process_id h]
  exact post_process_id h

/-- C3 witness: idempotence at the clean string `"hello"`. -/
theorem post_process_idempotent_on_clean_witness :
    _post_process_markdown (_post_process_markdown "hello") =
      _post_process_markdown "hello" :=
  post_process_idempotent_on_clean "hello"
    (by refine ⟨?_, ?_, ?_, ?_, ?_, ?_, ?_⟩ <;> decide)

/- ===== C7: heading shifting ===== -/

/-- A heading match consumes at least one character. -/
theorem matchHeading_lt {cs : List Char} {k : Nat} {t rest : List Char}
    (h : matchHeading cs = some (k, t, rest)) : rest.length < cs.length := by
  unfold matchHeading at h
  by_cases hk : 1 ≤ (cs.takeWhile (· == '#')).length ∧ (cs.takeWhile (· == '#')).length ≤ 6
  · simp only [hk, if_pos] at h
    by_cases hw : ((cs.drop (cs.takeWhile (· == '#')).length).takeWhile pyIsSpace).isEmpty
    · simp [hw] at h
    · simp only [hw, Bool.false_eq_true, if_false, and_self, if_true,
        Option.some.injEq, Prod.mk.injEq] at h
      have hkle : (cs.takeWhile (· == '#')).length ≤ cs.length :=
        (List.takeWhile_sublist _).length_le
      obtain ⟨-, -, hrest⟩ := h
      subst hrest
      simp only [List.length_drop]
      omega
  · simp [hk] at h

/-- `takeWhile` passes over a prefix all of whose elements satisfy it. -/
theorem takeWhile_append_all {p : Char → Bool} {A : List Char}
    (h : ∀ x ∈ A, p x = true) (B : List Char) :
    (A ++ B).takeWhile p = A ++ B.takeWhile p := by
  induction A with
  | nil => simp
  | cons a A ih =>
    have ha : p a = true := h a (List.mem_cons_self _ _)
    simp only [List.cons_append, List.takeWhile_cons_of_pos ha]
    rw [ih fun x hx => h x (List.mem_cons_of_mem _ hx)]

/-- `dropWhile` drops a prefix all of whose elements satisfy it. -/
theorem dropWhile_append_all {p : Char → Bool} {A : List Char}
    (h : ∀ x ∈ A, p x = true) (B : List Char) :
    (A ++ B).dropWhile p = B.dropWhile p := by
  induction A with
  | nil => simp
  | cons a A ih =>
    have ha : p a = true := h a (List.mem_cons_self _ _)
    simp only [List.cons_append, List.dropWhile_cons_of_pos ha]
    exact ih fun x hx => h x (List.mem_cons_of_mem _ hx)

/-- The head of a `dropWhile` residue fails the predicate. -/
theorem head_dropWhile_not (p : Char → Bool) : ∀ (l : List Char) (y : Char)
    (ys : List Char), l.dropWhile p = y :: ys → p y = false := by
  intro l
  induction l with
  | nil => intro y ys h; simp at h
  | cons c t ih =>
    intro y ys h
    by_cases hc : p c
    · rw [List.dropWhile_cons_of_pos hc] at h
      exact ih y ys h
    · rw [List.dropWhile_cons_of_neg hc] at h
      obtain ⟨h1, -⟩ := List.cons.inj h
      subst h1
      simpa using hc

/-- `dropWhile` is `drop` by the `takeWhile` length. -/
theorem dropWhile_eq_drop (p : Char → Bool) : ∀ l : List Char,
    l.dropWhile p = l.drop (l.takeWhile p).length := by
  intro l
  induction l with
  | nil => rfl
  | cons c t ih =>
    by_cases hc : p c
    · simp [List.dropWhile_cons_of_pos hc, List.takeWhile_cons_of_pos hc, ih]
    · simp [List.dropWhile_cons_of_neg hc, List.takeWhile_cons_of_neg hc]

/-- The hash run of `line ++ X` is that of `line` when `X` does not begin with
a hash. -/
theorem takeWhile_hash_append (d X : List Char)
    (hX : X.takeWhile (· == '#') = []) :
    (d ++ X).takeWhile (· == '#') = d.takeWhile (· == '#') := by
  conv_lhs => rw [← List.takeWhile_append_dropWhile (p := (· == '#')) (l := d)]
  rw [List.append_assoc,
    takeWhile_append_all (fun x hx => List.mem_takeWhile_imp hx) _]
  cases hD : d.dropWhile (· == '#') with
  | nil => simp [hX]
  | cons y D2 =>
    have hy := head_dropWhile_not _ _ _ _ hD
    rw [List.cons_append, List.takeWhile_cons_of_neg (by simp [hy])]
    simp

/-- Dropping the hash run of `line ++ X` leaves the line remainder plus `X`. -/
theorem drop_hash_append (d X : List Char)
    (hX : X.takeWhile (· == '#') = []) :
    (d ++ X).drop ((d ++ X).takeWhile (· == '#')).length =
      d.dropWhile (· == '#') ++ X := by
  rw [takeWhile_hash_append d X hX]
  have h2 : d ++ X = d.takeWhile (· == '#') ++ (d.dropWhile (· == '#') ++ X) := by
    rw [← List.append_assoc, List.takeWhile_append_dropWhile]
  rw [h2]
  exact List.drop_left _ _

/-- A line terminator (or end of input) contains no leading hash. -/
theorem lineTermHashFree {X : List Char} (hX : X = [] ∨ ∃ r, X = '\n' :: r) :
    X.takeWhile (· == '#') = [] := by
  rcases hX with h | ⟨r, h⟩ <;> subst h
  · rfl
  · exact List.takeWhile_cons_of_neg (by decide)

/-- The heading regex matches a line (against a line terminator or end of
input) exactly as it matches the line alone: hash count, whitespace run inside
the line, text to the line end, rest the terminator. -/
theorem matchHeading_line_some (l : String) (hnl : '\n' ∉ l.data)
    (hk1 : 1 ≤ (l.data.takeWhile (· == '#')).length)
    (hk6 : (l.data.takeWhile (· == '#')).length ≤ 6)
    (hw : ¬ (((l.data.dropWhile (· == '#')).takeWhile pyIsSpace).isEmpty = true))
    (hT : (l.data.dropWhile (· == '#')).dropWhile pyIsSpace ≠ [])
    (X : List Char) (hX : X = [] ∨ ∃ r, X = '\n' :: r) :
    matchHeading (l.data ++ X) = some ((l.data.takeWhile (· == '#')).length,
      (l.data.dropWhile (· == '#')).dropWhile pyIsSpace, X) := by
  have hXhash := lineTermHashFree hX
  have hk' := takeWhile_hash_append l.data X hXhash
  have hr1 := drop_hash_append l.data X hXhash
  obtain ⟨y, T2, hTy⟩ : ∃ y T2, (l.data.dropWhile (· == '#')).dropWhile pyIsSpace
      = y :: T2 := by
    cases h : (l.data.dropWhile (· == '#')).dropWhile pyIsSpace with
    | nil => exact absurd h hT
    | cons y T2 => exact ⟨y, T2, rfl⟩
  have hy : pyIsSpace y = false := head_dropWhile_not _ _ _ _ hTy
  have hDX : l.data.dropWhile (· == '#') ++ X =
      (l.data.dropWhile (· == '#')).takeWhile pyIsSpace ++
        ((l.data.dropWhile (· == '#')).dropWhile pyIsSpace ++ X) := by
    rw [← List.append_assoc, List.takeWhile_append_dropWhile]
  have hws : (l.data.dropWhile (· == '#') ++ X).takeWhile pyIsSpace =
      (l.data.dropWhile (· == '#')).takeWhile pyIsSpace := by
    rw [hDX, takeWhile_append_all (fun x hx => List.mem_takeWhile_imp hx)]
    rw [hTy, List.cons_append, List.takeWhile_cons_of_neg (by simp [hy])]
    simp
  have hr2 : (l.data.dropWhile (· == '#') ++ X).drop
      ((l.data.dropWhile (· == '#')).takeWhile pyIsSpace).length =
      (l.data.dropWhile (· == '#')).dropWhile pyIsSpace ++ X := by
    rw [hDX]
    exact List.drop_left _ _
  have hTsub : ∀ x ∈ (l.data.dropWhile (· == '#')).dropWhile pyIsSpace,
      decide (x ≠ '\n') = true := by
    intro x hx
    have h1 : x ∈ l.data.dropWhile (· == '#') :=
      (List.dropWhile_sublist _).subset hx
    have h2 : x ∈ l.data := (List.dropWhile_sublist _).subset h1
    simp
    intro hx2
    exact hnl (hx2 ▸ h2)
  have htext : ((l.data.dropWhile (· == '#')).dropWhile pyIsSpace ++ X).takeWhile
      (fun x => decide (x ≠ '\n')) =
      (l.data.dropWhile (· == '#')).dropWhile pyIsSpace := by
    rw [takeWhile_append_all hTsub]
    rcases hX with h | ⟨r, h⟩ <;> subst h
    · simp
    · rw [List.takeWhile_cons_of_neg (by decide)]
      simp
  have hrest : ((l.data.dropWhile (· == '#')).dropWhile pyIsSpace ++ X).drop
      ((l.data.dropWhile (· == '#')).dropWhile pyIsSpace).length = X :=
    List.drop_left _ _
  have hr1' : (l.data ++ X).drop (l.data.takeWhile (· == '#')).length =
      l.data.dropWhile (· == '#') ++ X := by
    rw [← hk']
    exact hr1
  unfold matchHeading
  simp only [hk', hr1', hws, hr2, htext, hrest]
  rw [if_pos ⟨hk1, hk6⟩, if_neg hw]

/-- When the line does not match (hash count outside `[1,6]` or no whitespace
after the hashes), the heading regex does not match at the joined position
either, provided the line satisfies the C7 side condition. -/
theorem matchHeading_line_none (l : String) (hok : headingLineOk l)
    (hC : ¬ (1 ≤ (l.data.takeWhile (· == '#')).length ∧
      (l.data.takeWhile (· == '#')).length ≤ 6 ∧
      ¬ (((l.data.dropWhile (· == '#')).takeWhile pyIsSpace).isEmpty = true)))
    (X : List Char) (hX : X = [] ∨ ∃ r, X = '\n' :: r) :
    matchHeading (l.data ++ X) = none := by
  have hXhash := lineTermHashFree hX
  have hk' := takeWhile_hash_append l.data X hXhash
  have hr1 := drop_hash_append l.data X hXhash
  have hr1' : (l.data ++ X).drop (l.data.takeWhile (· == '#')).length =
      l.data.dropWhile (· == '#') ++ X := by
    rw [← hk']
    exact hr1
  unfold matchHeading
  simp only [hk', hr1']
  by_cases hk16 : 1 ≤ (l.data.takeWhile (· == '#')).length ∧
      (l.data.takeWhile (· == '#')).length ≤ 6
  · rw [if_pos hk16]
    have hW : ((l.data.dropWhile (· == '#')).takeWhile pyIsSpace) = [] := by
      by_cases hWe : (((l.data.dropWhile (· == '#')).takeWhile pyIsSpace).isEmpty = true)
      · exact List.isEmpty_iff.1 hWe
      · exact absurd ⟨hk16.1, hk16.2, hWe⟩ hC
    have hT : (l.data.dropWhile (· == '#')).dropWhile pyIsSpace ≠ [] := by
      have := hok hk16.1 hk16.2
      rwa [← dropWhile_eq_drop] at this
    obtain ⟨y, D2, hDy⟩ : ∃ y D2, l.data.dropWhile (· == '#') = y :: D2 := by
      cases h : l.data.dropWhile (· == '#') with
      | nil =>
        rw [h] at hT
        simp at hT
      | cons y D2 => exact ⟨y, D2, rfl⟩
    have hy : pyIsSpace y = false := by
      by_cases h : pyIsSpace y
      · rw [hDy, List.takeWhile_cons_of_pos h] at hW
        simp at hW
      · simpa using h
    have hws0 : (l.data.dropWhile (· == '#') ++ X).takeWhile pyIsSpace = [] := by
      rw [hDy, List.cons_append, List.takeWhile_cons_of_neg (by simp [hy])]
    rw [if_pos (by simp [hws0])]
  · rw [if_neg hk16]

/-- One scanner step at a line start. -/
theorem shiftScanAux_cons_true (o : Int) (f : Nat) (c : Char) (rest : List Char) :
    shiftScanAux o (f + 1) (c :: rest) true =
      match matchHeading (c :: rest) with
      | some (k, text, restA) =>
        replHeading o k text ++ shiftScanAux o f restA false
      | none => c :: shiftScanAux o f rest (c == '\n') := rfl

/-- One scanner step away from a line start. -/
theorem shiftScanAux_cons_false (o : Int) (f : Nat) (c : Char) (rest : List Char) :
    shiftScanAux o (f + 1) (c :: rest) false =
      c :: shiftScanAux o f rest (c == '\n') := rfl

/-- The scan result does not depend on the fuel once the fuel covers the
input length. -/
theorem shiftScanAux_fuel (o : Int) : ∀ f1 : Nat, ∀ f2 cs flag, cs.length ≤ f1 →
    cs.length ≤ f2 → shiftScanAux o f1 cs flag = shiftScanAux o f2 cs flag := by
  intro f1
  induction f1 with
  | zero =>
    intro f2 cs flag h1 h2
    have hcs : cs = [] := List.eq_nil_of_length_eq_zero (Nat.le_zero.1 h1)
    subst hcs
    simp [shiftScanAux]
  | succ f ih =>
    intro f2 cs flag h1 h2
    cases cs with
    | nil => simp [shiftScanAux]
    | cons c rest =>
      cases f2 with
      | zero =>
        simp only [List.length_cons] at h2
        omega
      | succ g =>
        simp only [List.length_cons] at h1 h2
        have hr1 : rest.length ≤ f := by omega
        have hr2 : rest.length ≤ g := by omega
        cases flag with
        | false =>
          rw [shiftScanAux_cons_false, shiftScanAux_cons_false,
            ih g rest (c == '\n') hr1 hr2]
        | true =>
          rw [shiftScanAux_cons_true, shiftScanAux_cons_true]
          cases hm : matchHeading (c :: rest) with
          | none =>
            simp only [hm]
            rw [ih g rest (c == '\n') hr1 hr2]
          | some v =>
            obtain ⟨k, text, restA⟩ := v
            have hlt := matchHeading_lt hm
            simp only [List.length_cons] at hlt
            simp only [hm]
            rw [ih g restA false (by omega) (by omega)]

/-- Away from a line start the scanner copies newline-free characters
verbatim. -/
theorem shiftScanAux_copy (o : Int) : ∀ cs : List Char, ∀ f rest, '\n' ∉ cs →
    cs.length + rest.length ≤ f →
    shiftScanAux o f (cs ++ rest) false =
      cs ++ shiftScanAux o rest.length rest false := by
  intro cs
  induction cs with
  | nil =>
    intro f rest _ hf
    simp only [List.nil_append]
    exact shiftScanAux_fuel o f rest.length rest false (by simpa using hf) le_rfl
  | cons c cs ih =>
    intro f rest h hf
    cases f with
    | zero =>
      simp only [List.length_cons] at hf
      omega
    | succ g =>
      have hcne : c ≠ '\n' := fun hc => h (hc ▸ List.mem_cons_self _ _)
      have hc : (c == '\n') = false := by simpa using hcne
      simp only [List.cons_append]
      rw [shiftScanAux_cons_false, hc]
      simp only [List.length_cons] at hf
      rw [ih g rest (fun hm => h (List.mem_cons_of_mem _ hm)) (by omega)]

/-- Scanning the joined tail (a newline before each remaining line) at flag
false shifts each remaining line, assuming the scan of the remaining lines
alone does. -/
theorem shiftScanAux_tail (o : Int) (L : List String)
    (hres : shiftScanAux o (joinCharLines (L.map String.data)).length
        (joinCharLines (L.map String.data)) true =
      joinCharLines (L.map fun l => (lineShiftSpec o l).data)) :
    shiftScanAux o ((L.map String.data).flatMap fun l2 => '\n' :: l2).length
        ((L.map String.data).flatMap fun l2 => '\n' :: l2) false =
      (L.map fun l => (lineShiftSpec o l).data).flatMap fun l2 => '\n' :: l2 := by
  cases L with
  | nil => simp [shiftScanAux]
  | cons l2 ls =>
    have hX : ((l2 :: ls).map String.data).flatMap (fun x => '\n' :: x) =
        '\n' :: joinCharLines ((l2 :: ls).map String.data) := by
      simp [joinCharLines]
    have hY : ((l2 :: ls).map fun l => (lineShiftSpec o l).data).flatMap
          (fun x => '\n' :: x) =
        '\n' :: joinCharLines ((l2 :: ls).map fun l => (lineShiftSpec o l).data) := by
      simp [joinCharLines]
    rw [hX, hY]
    have hnl : ('\n' == '\n') = true := by decide
    rw [List.length_cons, shiftScanAux_cons_false, hnl, hres]

/-- The scanner over newline-joined lines (each newline-free and satisfying
the C7 side condition) shifts each line independently. -/
theorem shiftScanAux_lines (o : Int) : ∀ L : List String,
    (∀ l ∈ L, noNl l ∧ headingLineOk l) →
    shiftScanAux o (joinCharLines (L.map String.data)).length
        (joinCharLines (L.map String.data)) true =
      joinCharLines (L.map fun l => (lineShiftSpec o l).data) := by
  intro L
  induction L with
  | nil =>
    intro _
    simp [joinCharLines, shiftScanAux]
  | cons l L ih =>
    intro h
    have hnl : noNl l := (h l (List.mem_cons_self _ _)).1
    have hok : headingLineOk l := (h l (List.mem_cons_self _ _)).2
    have hrest := ih fun l2 h2 => h l2 (List.mem_cons_of_mem _ h2)
    have htail := shiftScanAux_tail o L hrest
    have hX : (L.map String.data).flatMap (fun x => '\n' :: x) = [] ∨
        ∃ r, (L.map String.data).flatMap (fun x => '\n' :: x) = '\n' :: r := by
      cases L with
      | nil => exact Or.inl rfl
      | cons l2 ls =>
        exact Or.inr ⟨l2.data ++ (ls.map String.data).flatMap fun x => '\n' :: x,
          by simp⟩
    have hjoin : joinCharLines ((l :: L).map String.data) =
        l.data ++ (L.map String.data).flatMap fun x => '\n' :: x := by
      simp [joinCharLines]
    have hjoin2 : joinCharLines ((l :: L).map fun x => (lineShiftSpec o x).data) =
        (lineShiftSpec o l).data ++
          (L.map fun x => (lineShiftSpec o x).data).flatMap fun x => '\n' :: x := by
      simp [joinCharLines]
    rw [hjoin, hjoin2]
    have hdw : l.data.drop (l.data.takeWhile (· == '#')).length =
        l.data.dropWhile (· == '#') := (dropWhile_eq_drop _ l.data).symm
    by_cases hcond : 1 ≤ (l.data.takeWhile (· == '#')).length ∧
        (l.data.takeWhile (· == '#')).length ≤ 6 ∧
        ¬((l.data.drop (l.data.takeWhile (· == '#')).length).takeWhile
            pyIsSpace).isEmpty = true
    · -- the line is a heading: the match fires and covers exactly the line
      have hw' : ¬(((l.data.dropWhile (· == '#')).takeWhile
          pyIsSpace).isEmpty = true) := by
        rw [← hdw]
        exact hcond.2.2
      have hT : (l.data.dropWhile (· == '#')).dropWhile pyIsSpace ≠ [] := by
        rw [← hdw]
        exact hok hcond.1 hcond.2.1
      have hm := matchHeading_line_some l hnl hcond.1 hcond.2.1 hw' hT _ hX
      obtain ⟨c, cs, hl⟩ : ∃ c cs, l.data = c :: cs := by
        cases hd : l.data with
        | nil =>
          exfalso
          rw [hd] at hcond
          simp at hcond
        | cons c cs => exact ⟨c, cs, rfl⟩
      have hm' : matchHeading (c :: (cs ++
          (L.map String.data).flatMap fun x => '\n' :: x)) =
          some ((l.data.takeWhile (· == '#')).length,
            (l.data.dropWhile (· == '#')).dropWhile pyIsSpace,
            (L.map String.data).flatMap fun x => '\n' :: x) := by
        rw [← List.cons_append, ← hl]
        exact hm
      have hrepl : replHeading o (l.data.takeWhile (· == '#')).length
          ((l.data.dropWhile (· == '#')).dropWhile pyIsSpace) =
          (lineShiftSpec o l).data := by
        simp only [lineShiftSpec]
        rw [if_pos hcond, hdw]
        rfl
      have hfuel : shiftScanAux o (cs ++
            (L.map String.data).flatMap fun x => '\n' :: x).length
          ((L.map String.data).flatMap fun x => '\n' :: x) false =
          shiftScanAux o ((L.map String.data).flatMap fun x => '\n' :: x).length
            ((L.map String.data).flatMap fun x => '\n' :: x) false := by
        refine shiftScanAux_fuel o _ _ _ _ ?_ le_rfl
        simp only [List.length_append]
        omega
      rw [hl]
      simp only [List.cons_append, List.length_cons]
      rw [shiftScanAux_cons_true]
      simp only [hm']
      rw [hfuel, htail, hrepl]
    · -- the line is not a heading: no match, characters are copied
      have hC : ¬(1 ≤ (l.data.takeWhile (· == '#')).length ∧
          (l.data.takeWhile (· == '#')).length ≤ 6 ∧
          ¬(((l.data.dropWhile (· == '#')).takeWhile pyIsSpace).isEmpty = true)) := by
        rw [← hdw]
        exact hcond
      have hm := matchHeading_line_none l hok hC _ hX
      have hspec : lineShiftSpec o l = l := by
        simp only [lineShiftSpec, if_neg hcond]
      rw [hspec]
      cases hl : l.data with
      | nil =>
        simp only [List.nil_append]
        rcases hX with hX0 | ⟨r, hXr⟩
        · cases L with
          | nil => simp [shiftScanAux, joinCharLines]
          | cons l2 ls => simp at hX0
        · rw [hl, List.nil_append] at hm
          rw [hXr] at hm htail ⊢
          have hnl2 : ('\n' == '\n') = true := by decide
          rw [List.length_cons, shiftScanAux_cons_false, hnl2] at htail
          rw [List.length_cons, shiftScanAux_cons_true]
          simp only [hm, hnl2]
          exact htail
      | cons c cs =>
        have hcne : c ≠ '\n' := by
          intro hc
          apply hnl
          rw [hl, hc]
          exact List.mem_cons_self _ _
        have hc : (c == '\n') = false := by simpa using hcne
        have hcs : '\n' ∉ cs := by
          intro hmem
          apply hnl
          rw [hl]
          exact List.mem_cons_of_mem _ hmem
        have hm' : matchHeading (c :: (cs ++
            (L.map String.data).flatMap fun x => '\n' :: x)) = none := by
          rw [← List.cons_append, ← hl]
          exact hm
        simp only [List.cons_append, List.length_cons]
        rw [shiftScanAux_cons_true]
        simp only [hm']
        rw [hc, shiftScanAux_copy o cs _ _ hcs
          (le_of_eq (List.length_append _ _).symm), htail]

set_option maxHeartbeats 1000000 in
/-- C7 counterexample: the heading regex's `\s+` crosses the newline, so on
`"#\nabc"` (a bare-hash line every per-line reading leaves unchanged, followed
by a text line) the transform merges the two lines into the single heading
`"## abc"` instead of leaving them alone. -/
theorem shift_markdown_headings_merges_lines :
    shift_markdown_headings "#\nabc" 1 = "## abc" ∧
    shift_markdown_headings "#\nabc" 1 ≠ "#\nabc" ∧
    shift_markdown_headings "#\nabc" 1 ≠ "##\nabc" := by
  refine ⟨?_, by decide, by decide⟩
  decide

set_option maxHeartbeats 1000000 in
/-- C7 (amended): on input that is a newline-join of lines, each free of
newlines, and where every line opening with one to six hashes plus whitespace
has non-whitespace text after the whitespace run, `shift_markdown_headings`
acts line by line: a line whose un-indented prefix is 1–6 hashes followed by
whitespace becomes `min(k + offset, 6)` hashes, a space, and the text after
the whitespace run; every other line is unchanged. -/
theorem shift_markdown_headings_per_line (offset : Int) (L : List String)
    (h : ∀ l ∈ L, noNl l ∧ headingLineOk l) :
    shift_markdown_headings (String.intercalate "\n" L) offset =
      String.intercalate "\n" (L.map (lineShiftSpec offset)) := by
  rw [intercalate_nl_eq, intercalate_nl_eq]
  simp only [shift_markdown_headings]
  have hcomp : List.map String.data (List.map (lineShiftSpec offset) L) =
      List.map (fun l => (lineShiftSpec offset l).data) L := by
    rw [List.map_map]
    rfl
  rw [hcomp, shiftScanAux_lines offset L h]

set_option maxHeartbeats 1000000 in
/-- Witness for the amended C7 theorem at a concrete five-line document. -/
theorem shift_markdown_headings_per_line_witness :
    (∀ l ∈ ["# Title", "text", "####### seven", "  # indented", "###### six x"],
      noNl l ∧ headingLineOk l) ∧
    shift_markdown_headings
        (String.intercalate "\n"
          ["# Title", "text", "####### seven", "  # indented", "###### six x"]) 1 =
      String.intercalate "\n"
        (["# Title", "text", "####### seven", "  # indented",
          "###### six x"].map (lineShiftSpec 1)) :=
  ⟨by decide, shift_markdown_headings_per_line 1
    ["# Title", "text", "####### seven", "  # indented", "###### six x"]
    (by decide)⟩

end EdSpec
